import Mathlib

/-!
Shallow embedding of the ssd1306lib OLED driver (src/oled.c) and proofs about it.

The display handle, frame buffer, rasterizer (OLED_put_pixel, OLED_put_rectangle,
OLED_put_line), the I2C transaction scheduler (OLED_i2c_tx_shed), the interrupt
state machine (ISR(TWI_vect)), the refresh pipeline callbacks (OLED_cbk_writepage,
OLED_cbk_setwritepage, OLED_refresh) and __OLED_init are translated from oled.c.

Machine integers: all C uint8_t / uint16_t values are embedded as Nat, with an
explicit % 256 wherever the C code truncates a wider intermediate value into a
uint8_t object.  C arithmetic on uint8_t operands is performed after integer
promotion, so expressions such as stop_x - start_x are mathematical integers in
C; every use below is guarded by the branch condition that makes the difference
non-negative, where Nat subtraction agrees with it (this is argued case by case
at the corresponding definitions).

Loops: a C loop of the shape for (uint8_t x = s; x <= t; x++) terminates iff
t < 255 (when t = 255 the uint8_t counter can never exceed t and the loop runs
forever).  Such loops are embedded through u8forLe, which returns none exactly
in the divergent case; a function returns none when the C code never reaches an
explicit return statement (either by falling off the end of the function body
or by hanging in such a loop).
-/

/-- Error codes of the driver API (OLED_err in oled.h; the names OLED_EOK,
OLED_EBOUNDS, OLED_EPARAMS, OLED_EBUSY all occur in src/oled.c). -/
inductive OLED_err where
  | OLED_EOK
  | OLED_EBOUNDS
  | OLED_EPARAMS
  | OLED_EBUSY
deriving DecidableEq, Repr

open OLED_err

/-- Modelled from the spec: the draw-parameter constants from oled.h (missing
from src/).  The spec says params selects pixel color and fill-vs-outline and
the demo program uses OLED_FILL | 1 for a black fill and OLED_WHITE = not black;
oled.c tests (OLED_BLACK & params), (OLED_FILL & params) and
params > (OLED_BLACK | OLED_FILL), so OLED_WHITE = 0, OLED_BLACK = 1,
OLED_FILL = 2. -/
def OLED_WHITE : Nat := 0

/-- Modelled from the spec: see OLED_WHITE. -/
def OLED_BLACK : Nat := 1

/-- Modelled from the spec: see OLED_WHITE. -/
def OLED_FILL : Nat := 2

/-- The display handle (struct OLED, field usage visible in src/oled.c).
busy_lock: 1 = unlocked, 0 = locked. -/
structure OLED where
  width : Nat
  height : Nat
  frame_buffer : List Nat
  cur_page : Nat
  num_pages : Nat
  i2c_addr : Nat
  busy_lock : Nat
deriving DecidableEq, Repr

/-- Modelled from the spec: OLED_put_pixel_ is the inline bit-access primitive
living in oled.h (missing from src/).  Per spec sections 3 and 8 a pixel (x, y)
is bit (y % 8) of byte frame_buffer[(y / 8) * width + x]; pixel_state true sets
the bit and false clears it.  Its parameters are uint8_t, so the arguments are
truncated mod 256 first.  A write whose byte index falls outside the buffer is
left as a no-op (List.set is the identity there); no claim depends on the
contents of out-of-buffer memory. -/
def OLED_put_pixel_ (o : OLED) (x y : Nat) (pixel_state : Bool) : OLED :=
  let x := x % 256
  let y := y % 256
  let idx := (y / 8) * o.width + x
  let b := o.frame_buffer.getD idx 0
  let b' := if pixel_state then b ||| (1 <<< (y % 8)) else b &&& (255 ^^^ (1 <<< (y % 8)))
  { o with frame_buffer := o.frame_buffer.set idx b' }

/-- Observer: the value of pixel (x, y) under the frame-buffer addressing rule
of spec section 3. -/
def readPixel (o : OLED) (x y : Nat) : Bool :=
  (o.frame_buffer.getD ((y / 8) * o.width + x) 0).testBit (y % 8)

/-- OLED_put_pixel from oled.c lines 265-271: bounds check, then the inline
primitive. -/
def OLED_put_pixel (o : OLED) (x y : Nat) (pixel_state : Bool) : OLED_err × OLED :=
  if x ≥ o.width ∨ y ≥ o.height then (OLED_EBOUNDS, o)
  else (OLED_EOK, OLED_put_pixel_ o x y pixel_state)

/-- One coordinate clamp from oled.c (pattern at lines 285-300 and 350-365):
if v > m the value is clamped to m and the error counter is incremented.
Returns (clamped value, number of clamps fired). -/
def clampOne (v m : Nat) : Nat × Nat :=
  if v > m then (m, 1) else (v, 0)

/-- The list of values taken by a C loop counter uint8_t x running from s while
x <= t.  When t = 255 the condition x <= t is always true for a uint8_t, the
counter wraps and the loop never terminates: that case is none.  Otherwise the
counter takes the values s, s+1, ..., t (none at all if s > t). -/
def u8forLe (s t : Nat) : Option (List Nat) :=
  if t = 255 then none else some (List.range' s (t + 1 - s))

/-- OLED_put_rectangle from oled.c lines 274-335. -/
def OLED_put_rectangle (o : OLED) (x_from y_from x_to y_to params : Nat) :
    Option (OLED_err × OLED) :=
  if params > (OLED_BLACK ||| OLED_FILL) then some (OLED_EPARAMS, o) else
  let pixel_color : Bool := decide ((OLED_BLACK &&& params) ≠ 0)
  let is_fill : Bool := decide ((OLED_FILL &&& params) ≠ 0)
  -- w_max = width - 1 and h_max = height - 1 as uint8_t values (wrap at 0)
  let w_max := (o.width + 255) % 256
  let h_max := (o.height + 255) % 256
  let cxf := clampOne x_from w_max
  let cxt := clampOne x_to w_max
  let cyf := clampOne y_from h_max
  let cyt := clampOne y_to h_max
  if cxf.2 + cxt.2 + cyf.2 + cyt.2 ≥ 4 then some (OLED_EBOUNDS, o) else
  -- start_x = x_to < x_from ? x_to : x_from, etc.
  let start_x := min cxt.1 cxf.1
  let start_y := min cyt.1 cyf.1
  let stop_x := max cxt.1 cxf.1
  let stop_y := max cyt.1 cyf.1
  if is_fill then
    (u8forLe start_x stop_x).bind fun xs =>
    (u8forLe start_y stop_y).map fun ys =>
      (OLED_EOK,
        xs.foldl (fun acc x =>
          ys.foldl (fun acc2 y => OLED_put_pixel_ acc2 x y pixel_color) acc) o)
  else
    (u8forLe start_x stop_x).bind fun xs =>
    (u8forLe start_y stop_y).map fun ys =>
      (OLED_EOK,
        let o1 := xs.foldl (fun acc x =>
          OLED_put_pixel_ (OLED_put_pixel_ acc x start_y pixel_color) x stop_y pixel_color) o
        ys.foldl (fun acc y =>
          OLED_put_pixel_ (OLED_put_pixel_ acc start_x y pixel_color) stop_x y pixel_color) o1)

/-- The endpoint normalization of OLED_put_line (oled.c lines 380-394): start
and end are swapped when (x_from >= x_to and y_from >= y_to) or
(x_from > x_to and y_from < y_to).  Returns (start_x, start_y, stop_x, stop_y). -/
def normSwap (x_from y_from x_to y_to : Nat) : Nat × Nat × Nat × Nat :=
  if (x_from ≥ x_to ∧ y_from ≥ y_to) ∨ (x_from > x_to ∧ y_from < y_to) then
    (x_to, y_to, x_from, y_from)
  else
    (x_from, y_from, x_to, y_to)

/-- The delta_big / delta_small computation of OLED_put_line (oled.c lines
425-444), on the normalized coordinates.  Returns (delta_big, delta_small);
both stay 0 on the branches where the C code assigns neither.  All subtractions
are guarded by the strict comparison that makes them exact. -/
def lineDeltas (start_x start_y stop_x stop_y : Nat) : Nat × Nat :=
  if start_x < stop_x ∧ start_y < stop_y then
    if stop_x - start_x > stop_y - start_y then
      (stop_x - start_x, stop_y - start_y)
    else if stop_x - start_x < stop_y - start_y then
      (stop_y - start_y, stop_x - start_x)
    else (0, 0)
  else if start_x < stop_x ∧ start_y > stop_y then
    if stop_x - start_x > start_y - stop_y then
      (stop_x - start_x, start_y - stop_y)
    else if stop_x - start_x < start_y - stop_y then
      (start_y - stop_y, stop_x - start_x)
    else (0, 0)
  else (0, 0)

/-- One uniform-staircase loop of OLED_put_line (the four copies at oled.c
lines 471-509).  The outer uint8_t counter runs over the values in os (0 up to
delta_big inclusive); the secondary counter starts at 0 and is incremented
whenever the outer counter is divisible by line_lenght; after that adjustment a
pixel is drawn through pix (outer value, secondary value). -/
def unifLoop (o : OLED) (pix : Nat → Nat → OLED → OLED) (line_lenght : Nat)
    (os : List Nat) : OLED :=
  (os.foldl (fun (acc : OLED × Nat) oc =>
    let s := if oc % line_lenght = 0 then acc.2 + 1 else acc.2
    (pix oc s acc.1, s)) (o, 0)).1

/-- One two-length-staircase loop of OLED_put_line (the four copies at oled.c
lines 528-581).  Mirrors, for the copy at lines 542-554: outer counter x (here
oc) runs while oc < delta_big with increment oc++; secondary counter y (here s)
is incremented when oc % line_lenght == 0; then, if (s + 1) % long_line_pos == 0,
a pixel is drawn at (oc, s) and the OUTER counter is incremented once more
inside the body; finally a pixel is drawn at the current (oc, s).  The other
three copies differ only in which axis is the outer counter and in the sign of
the y step, both captured by pix.  The first Nat argument after delta_big is
structural fuel: the outer counter starts at 0 and strictly increases on every
iteration, so delta_big iterations always suffice and the call sites pass
fuel = delta_big; the loop itself exits as soon as the counter reaches
delta_big, exactly like the C condition. -/
def stairLoop (pix : Nat → Nat → OLED → OLED) (line_lenght long_line_pos delta_big : Nat) :
    Nat → Nat → Nat → OLED → OLED
  | 0, _, _, acc => acc
  | fuel + 1, oc, s, acc =>
    if oc < delta_big then
      let s' := if oc % line_lenght = 0 then s + 1 else s
      if (s' + 1) % long_line_pos = 0 then
        stairLoop pix line_lenght long_line_pos delta_big fuel (oc + 2) s'
          (pix (oc + 1) s' (pix oc s' acc))
      else
        stairLoop pix line_lenght long_line_pos delta_big fuel (oc + 1) s' (pix oc s' acc)
    else acc

/-- The first staircase situation block of OLED_put_line (oled.c lines
469-510), entered when delta_big % delta_small == 0.  Result none means C
control FALLS THROUGH this block (no inner return executed: either the
remainder is non-zero, or none of the four guards fired); some none means a
loop in the block hangs; some (some r) is an explicit return. -/
def lineFirstCase (o : OLED) (c : Bool) (start_x start_y stop_x stop_y
    delta_big delta_small line_lenght : Nat) : Option (Option (OLED_err × OLED)) :=
  if delta_big % delta_small = 0 then
    if start_x < stop_x ∧ start_y < stop_y then
      if delta_small = stop_x - start_x then
        some ((u8forLe 0 delta_big).map fun os =>
          (OLED_EOK, unifLoop o
            (fun oc s acc => OLED_put_pixel_ acc (start_x + s) (start_y + oc) c)
            line_lenght os))
      else if delta_small = stop_y - start_y then
        some ((u8forLe 0 delta_big).map fun os =>
          (OLED_EOK, unifLoop o
            (fun oc s acc => OLED_put_pixel_ acc (start_x + oc) (start_y + s) c)
            line_lenght os))
      else none
    else if start_x < stop_x ∧ start_y > stop_y then
      if delta_small = stop_x - start_x then
        some ((u8forLe 0 delta_big).map fun os =>
          (OLED_EOK, unifLoop o
            (fun oc s acc =>
              OLED_put_pixel_ acc (start_x + s) ((start_y + 256 - oc) % 256) c)
            line_lenght os))
      else if delta_small = start_y - stop_y then
        some ((u8forLe 0 delta_big).map fun os =>
          (OLED_EOK, unifLoop o
            (fun oc s acc =>
              OLED_put_pixel_ acc (start_x + oc) ((start_y + 256 - s) % 256) c)
            line_lenght os))
      else none
    else none
  else none

/-- The second staircase situation block of OLED_put_line (oled.c lines
526-582).  Result none is the fall-off at the end of the C function body (no
explicit return is reached). -/
def lineSecondCase (o : OLED) (c : Bool) (start_x start_y stop_x stop_y
    delta_big delta_small line_lenght long_line_pos : Nat) : Option (OLED_err × OLED) :=
  if start_x < stop_x ∧ start_y < stop_y then
    if delta_small = stop_x - start_x then
      some (OLED_EOK, stairLoop
        (fun oc s acc => OLED_put_pixel_ acc (start_x + s) (start_y + oc) c)
        line_lenght long_line_pos delta_big delta_big 0 0 o)
    else if delta_small = stop_y - start_y then
      some (OLED_EOK, stairLoop
        (fun oc s acc => OLED_put_pixel_ acc (start_x + oc) (start_y + s) c)
        line_lenght long_line_pos delta_big delta_big 0 0 o)
    else none
  else if start_x < stop_x ∧ start_y > stop_y then
    if delta_small = stop_x - start_x then
      some (OLED_EOK, stairLoop
        (fun oc s acc => OLED_put_pixel_ acc (start_x + s) ((start_y + 256 - oc) % 256) c)
        line_lenght long_line_pos delta_big delta_big 0 0 o)
    else if delta_small = start_y - stop_y then
      some (OLED_EOK, stairLoop
        (fun oc s acc => OLED_put_pixel_ acc (start_x + oc) ((start_y + 256 - s) % 256) c)
        line_lenght long_line_pos delta_big delta_big 0 0 o)
    else none
  else none

/-- The body of OLED_put_line after parameter check, clamping and endpoint
normalization (oled.c lines 396-584): the horizontal, vertical and exact-45
special cases, then the staircase rasterizer.  In the 45-degree situation_4
loop the C decrements y together with x, so y = start_y - (x - start_x); in
the situation_1 loop the condition (x <= stop_x, y <= stop_y) is the C comma
operator, i.e. only y <= stop_y is tested, and x = start_x + (y - start_y).
The subtractions match C int arithmetic on every branch where the condition
can hold (argued at the theorems). -/
def lineCore (o : OLED) (c : Bool) (start_x start_y stop_x stop_y : Nat) :
    Option (OLED_err × OLED) :=
  if start_y = stop_y then
    (u8forLe start_x stop_x).map fun xs =>
      (OLED_EOK, xs.foldl (fun acc x => OLED_put_pixel_ acc x start_y c) o)
  else if start_x = stop_x then
    (u8forLe start_y stop_y).map fun ys =>
      (OLED_EOK, ys.foldl (fun acc y => OLED_put_pixel_ acc start_x y c) o)
  else if stop_x - start_x = start_y - stop_y ∧ (start_x < stop_x ∧ start_y > stop_y) then
    (u8forLe start_x stop_x).map fun xs =>
      (OLED_EOK, xs.foldl (fun acc x =>
        OLED_put_pixel_ acc x (start_y - (x - start_x)) c) o)
  else if stop_x - start_x = stop_y - start_y then
    (u8forLe start_y stop_y).map fun ys =>
      (OLED_EOK, ys.foldl (fun acc y =>
        OLED_put_pixel_ acc (start_x + (y - start_y)) y c) o)
  else
    let d := lineDeltas start_x start_y stop_x stop_y
    let delta_big := d.1
    let delta_small := d.2
    let line_lenght := delta_big / delta_small
    match lineFirstCase o c start_x start_y stop_x stop_y delta_big delta_small line_lenght with
    | some r => r
    | none =>
      let long_line_pos := delta_small / (delta_small - delta_big % delta_small)
      lineSecondCase o c start_x start_y stop_x stop_y delta_big delta_small
        line_lenght long_line_pos

/-- OLED_put_line from oled.c lines 338-584.  none means the C code never
reaches an explicit return statement (fall-off at the end of the body, or an
infinite uint8_t loop). -/
def OLED_put_line (o : OLED) (x_from y_from x_to y_to params : Nat) :
    Option (OLED_err × OLED) :=
  if params > (OLED_BLACK ||| OLED_FILL) then some (OLED_EPARAMS, o) else
  let pixel_color : Bool := decide ((OLED_BLACK &&& params) ≠ 0)
  let w_max := (o.width + 255) % 256
  let h_max := (o.height + 255) % 256
  let cxf := clampOne x_from w_max
  let cxt := clampOne x_to w_max
  let cyf := clampOne y_from h_max
  let cyt := clampOne y_to h_max
  if cxf.2 + cxt.2 ≥ 2 ∨ cyf.2 + cyt.2 ≥ 2 then some (OLED_EBOUNDS, o) else
  let p := normSwap cxf.1 cyf.1 cxt.1 cyt.1
  lineCore o pixel_color p.1 p.2.1 p.2.2.1 p.2.2.2

/-! ## I2C transaction engine (oled.c lines 35-165) -/

/-- The FSM states of the interrupt-driven engine (enum I2C_State_e,
oled.c lines 65-71). -/
inductive I2C_State_e where
  | idle
  | stop
  | slaveaddr
  | writeprefix_
  | writebyte
deriving DecidableEq, Repr

/-- The static driver state the scheduler installs and the ISR consumes
(oled.c lines 55-72).  The C code keeps a byte pointer plus a remaining count
for the prefix (i2c_prefix_ptr / i2c_prefix_count) and for the payload
(i2c_data_ptr / i2c_data_count); here each pair is one Option (List Nat):
none is a NULL pointer, some l is a non-null pointer with count l.length.
The completion callback i2c_callback and its argument i2c_callback_args are
an opaque identifier cbk. -/
structure I2C where
  st : I2C_State_e
  devaddr : Nat
  pfx : Option (List Nat)
  data : Option (List Nat)
  fastfail : Bool
  cbk : Nat
deriving DecidableEq, Repr

/-- Observable actions of the ISR: a byte loaded into the TWDR data register,
the bus stop signal, and the completion callback invocation. -/
inductive I2CEvent where
  | twdr (b : Nat)
  | stopsig
  | callback (id : Nat)
deriving DecidableEq, Repr

/-- OLED_i2c_tx_shed from oled.c lines 99-121.  Inside the atomic block: if
the FSM is IDLE the descriptor is installed, the state moves to SLAVEADDR with
i2c_devaddr = (addr << 1) as a uint8_t, a start is signalled and true is
returned; otherwise nothing changes and false is returned. -/
def OLED_i2c_tx_shed (s : I2C) (addr : Nat) (pfx : Option (List Nat))
    (data : Option (List Nat)) (cbk : Nat) (fastfail : Bool) : Bool × I2C :=
  if s.st = I2C_State_e.idle then
    (true, { st := I2C_State_e.slaveaddr, devaddr := (addr <<< 1) % 256,
             pfx := pfx, data := data, fastfail := fastfail, cbk := cbk })
  else (false, s)

/-- One invocation of ISR(TWI_vect) (oled.c lines 124-165), i.e. one interrupt
event per byte transferred.  none models the undefined C behaviour of
dereferencing a NULL or exhausted prefix/payload pointer in the WRITEPREFIX or
WRITEBYTE state; the scheduler admission theorem shows runs never reach it. -/
def ISR_step (s : I2C) : Option (I2C × List I2CEvent) :=
  match s.st with
  | I2C_State_e.idle | I2C_State_e.stop =>
      -- transfer stop, go to IDLE, signal with callback that transaction is over
      some ({ s with st := I2C_State_e.idle },
            [I2CEvent.stopsig, I2CEvent.callback s.cbk])
  | I2C_State_e.slaveaddr =>
      let next :=
        if s.pfx.isNone ∧ s.data.isNone then I2C_State_e.stop
        else if s.pfx.isNone then I2C_State_e.writebyte
        else I2C_State_e.writeprefix_
      some ({ s with st := next }, [I2CEvent.twdr s.devaddr])
  | I2C_State_e.writeprefix_ =>
      match s.pfx with
      | some (b :: rest) =>
          let next :=
            if rest = [] then
              (if s.data.isNone then I2C_State_e.stop else I2C_State_e.writebyte)
            else I2C_State_e.writeprefix_
          some ({ s with pfx := some rest, st := next }, [I2CEvent.twdr b])
      | _ => none
  | I2C_State_e.writebyte =>
      match s.data with
      | some (b :: rest) =>
          let next := if rest = [] then I2C_State_e.stop else I2C_State_e.writebyte
          some ({ s with data := some rest, st := next }, [I2CEvent.twdr b])
      | _ => none

/-- Iterate ISR_step n times, collecting events. -/
def runISR : Nat → I2C → Option (I2C × List I2CEvent)
  | 0, s => some (s, [])
  | n + 1, s =>
      (ISR_step s).bind fun se =>
        (runISR n se.1).map fun se' => (se'.1, se.2 ++ se'.2)

/-- The I2C initialization command sequence _i2c_cmd_init (oled.c lines 37-42). -/
def _i2c_cmd_init : List Nat :=
  [0x80, 0x8D, 0x80, 0x14, 0x80, 0xAF, 0x80, 0x81, 0x80, 0xFF, 0x80, 0xA7]

/-- The data-prefix marker _i2c_cmd_dataprefix (oled.c line 53): one byte 0x40
announcing that the following bytes are pixel data. -/
def _i2c_cmd_datamark : List Nat := [0x40]

/-- The set-cursor command _i2c_cmd_setpage (oled.c lines 44-47) with its last
byte patched to 0xB0 | page as done by OLED_cbk_setwritepage (line 207); the
patched byte is a uint8_t. -/
def _i2c_cmd_setpage_patched (page : Nat) : List Nat :=
  [0x80, 0x00, 0x80, 0x10, 0x80, (0xB0 ||| page) % 256]

/-- I2C_init from oled.c lines 75-96: the part relevant to the driver state is
that the FSM state is reset to IDLE (the TWBR/TWSR/TWCR register setup is
hardware configuration outside the data model). -/
def I2C_init (s : I2C) : I2C :=
  { s with st := I2C_State_e.idle }

/-- __OLED_init from oled.c lines 241-262.  Fields are assigned, busy_lock is
set to 1 (unlocked), i2c_addr / cur_page / num_pages are set (num_pages is the
constant 8 in the source), I2C_init runs, and the init command transaction is
scheduled; failure to schedule returns OLED_EBUSY.  cbk 0 is OLED_cbk_empty. -/
def __OLED_init (s : I2C) (width height : Nat) (frame_buffer : List Nat)
    (i2c_freq_hz i2c_addr : Nat) : OLED_err × OLED × I2C :=
  let o : OLED :=
    { width := width, height := height, frame_buffer := frame_buffer,
      busy_lock := 1, i2c_addr := i2c_addr, cur_page := 0, num_pages := 8 }
  let s1 := I2C_init s
  let r := OLED_i2c_tx_shed s1 i2c_addr (some _i2c_cmd_init) none 0 true
  if r.1 then (OLED_EOK, o, r.2) else (OLED_EBUSY, o, r.2)

/-! ## Refresh pipeline (oled.c lines 168-236)

The pipeline is observed at transaction granularity: by the FSM theorems, an
admitted transaction runs to its terminal state and invokes its completion
callback exactly once, with the FSM back at IDLE, so the busy-retry loops
`while(!OLED_i2c_tx_shed(...))` inside the callbacks succeed on their first
iteration.  A pipeline step therefore completes the in-flight transaction and
runs its completion callback, which may install the next transaction. -/

/-- The completion callbacks threaded through the refresh pipeline. -/
inductive Cbk where
  | empty
  | unlock
  | writepage
  | setwritepage
deriving DecidableEq, Repr

/-- A scheduled transaction descriptor as the refresh pipeline creates it. -/
structure PTxn where
  addr : Nat
  pfx : Option (List Nat)
  payload : Option (List Nat)
  cbk : Cbk
  fastfail : Bool
deriving DecidableEq, Repr

/-- The frame-buffer slice transmitted for a page: width bytes starting at
page * width (lineptr in OLED_cbk_writepage, oled.c line 194). -/
def pageSlice (w : Nat) (fb : List Nat) (page : Nat) : List Nat :=
  (fb.drop (page * w)).take w

/-- OLED_unlock (from oled.h, usage in oled.c): busy_lock := 1. -/
def OLED_unlock (o : OLED) : OLED :=
  { o with busy_lock := 1 }

/-- Run one completion callback (oled.c lines 169-213): returns the updated
handle and the transaction the callback schedules, if any.
OLED_cbk_writepage: if cur_page >= num_pages unlock and stop, else schedule
the page-write for cur_page (prefix = the data marker, payload = the page
slice, callback = setwritepage) and increment cur_page.
OLED_cbk_setwritepage: patch the setpage command to 0xB0 | cur_page and
schedule it (no payload, callback = writepage). -/
def runCbk : Cbk → OLED → OLED × Option PTxn
  | Cbk.empty, o => (o, none)
  | Cbk.unlock, o => (OLED_unlock o, none)
  | Cbk.writepage, o =>
      if o.cur_page ≥ o.num_pages then (OLED_unlock o, none)
      else
        ({ o with cur_page := o.cur_page + 1 },
         some { addr := o.i2c_addr, pfx := some _i2c_cmd_datamark,
                payload := some (pageSlice o.width o.frame_buffer o.cur_page),
                cbk := Cbk.setwritepage, fastfail := true })
  | Cbk.setwritepage, o =>
      (o, some { addr := o.i2c_addr,
                 pfx := some (_i2c_cmd_setpage_patched o.cur_page),
                 payload := none, cbk := Cbk.writepage, fastfail := true })

/-- Pipeline state: the handle plus the single in-flight transaction slot. -/
structure PState where
  oled : OLED
  inflight : Option PTxn
deriving DecidableEq, Repr

/-- Complete the in-flight transaction: its completion callback runs and may
schedule the next transaction.  Returns the completed transaction. -/
def completeStep (s : PState) : PState × Option PTxn :=
  match s.inflight with
  | none => (s, none)
  | some t =>
      let r := runCbk t.cbk s.oled
      ({ oled := r.1, inflight := r.2 }, some t)

/-- Run n pipeline steps, collecting completed transactions in order. -/
def runSteps : Nat → PState → PState × List PTxn
  | 0, s => (s, [])
  | n + 1, s =>
      let r := completeStep s
      let r' := runSteps n r.1
      (r'.1, r.2.toList ++ r'.2)

/-- OLED_spinlock (from oled.h; spec section 3): busy-wait until busy_lock is
1, then set it to 0.  In the single-threaded pipeline model the wait ends, so
the effect is busy_lock := 0. -/
def OLED_spinlock (o : OLED) : OLED :=
  { o with busy_lock := 0 }

/-- OLED_refresh from oled.c lines 229-236: acquire the lock, reset cur_page
to 0, and call OLED_cbk_setwritepage directly, which schedules the first
cursor-set transaction. -/
def OLED_refresh (o : OLED) : PState :=
  let o := { OLED_spinlock o with cur_page := 0 }
  let r := runCbk Cbk.setwritepage o
  { oled := r.1, inflight := r.2 }

/-- The expected tail of the refresh-pipeline transaction trace, starting from
the cursor-set transaction for page k with m page writes still to go: the
cursor-set for page k, the page-k write, then the tail from page k + 1; the
recursion ends with one final cursor-set patched to page k + m (one past the
last page written).  Used to state the pipeline ordering theorems. -/
def tailTrace (ad w : Nat) (fb : List Nat) : Nat → Nat → List PTxn
  | k, 0 => [⟨ad, some (_i2c_cmd_setpage_patched k), none, Cbk.writepage, true⟩]
  | k, m + 1 =>
      ⟨ad, some (_i2c_cmd_setpage_patched k), none, Cbk.writepage, true⟩ ::
      ⟨ad, some _i2c_cmd_datamark, some (pageSlice w fb k), Cbk.setwritepage, true⟩ ::
      tailTrace ad w fb (k + 1) m

/-- Apply OLED_put_pixel_ at each coordinate pair of L in order, all with the
same pixel value c: the common shape of the rasterizer loop bodies, used to
state and prove their write-set semantics. -/
def writeAll (o : OLED) (c : Bool) (L : List (Nat × Nat)) : OLED :=
  L.foldl (fun acc p => OLED_put_pixel_ acc p.1 p.2 c) o

/-! ## Concrete display instances used by counterexamples and witnesses -/

/-- A 16-wide, 8-high display with an all-zero one-page frame buffer. -/
def oled16x8 : OLED :=
  { width := 16, height := 8, frame_buffer := List.replicate 16 0,
    cur_page := 0, num_pages := 1, i2c_addr := 60, busy_lock := 1 }

/-- A 64x64 display with an all-zero 512-byte frame buffer. -/
def oled64x64 : OLED :=
  { width := 64, height := 64, frame_buffer := List.replicate 512 0,
    cur_page := 0, num_pages := 8, i2c_addr := 60, busy_lock := 1 }

/-- A degenerate handle whose width field is 0: the uint8_t w_max = width - 1
wraps to 255, so no x clamp can ever fire and x loop bounds can reach 255. -/
def oledW0 : OLED :=
  { width := 0, height := 8, frame_buffer := [],
    cur_page := 0, num_pages := 1, i2c_addr := 60, busy_lock := 1 }

/-- A 1-pixel-wide 8-page display (height 64) whose frame buffer holds the
bytes 0..7, used for concrete refresh-pipeline runs. -/
def oledPipe1 : OLED :=
  { width := 1, height := 64, frame_buffer := List.range 8,
    cur_page := 3, num_pages := 8, i2c_addr := 60, busy_lock := 1 }

/-- An idle I2C engine state. -/
def i2cIdle : I2C :=
  { st := I2C_State_e.idle, devaddr := 0, pfx := none, data := none,
    fastfail := false, cbk := 0 }

/-! ## C5: initialization -/

/-- C5 (amended): after __OLED_init succeeds, the width and height fields
equal the given arguments, the lock is unlocked (busy_lock = 1), and the total
page count field is the constant 8 regardless of height (oled.c line 251);
init always succeeds because I2C_init has just reset the FSM to IDLE. -/
theorem OLED_init_fields_spec (s : I2C) (width height : Nat) (fb : List Nat)
    (freq addr : Nat) :
    (__OLED_init s width height fb freq addr).1 = OLED_EOK ∧
    (__OLED_init s width height fb freq addr).2.1.width = width ∧
    (__OLED_init s width height fb freq addr).2.1.height = height ∧
    (__OLED_init s width height fb freq addr).2.1.busy_lock = 1 ∧
    (__OLED_init s width height fb freq addr).2.1.num_pages = 8 := by
  simp [__OLED_init, OLED_i2c_tx_shed, I2C_init]

/-- C5 counterexample: at height 32 the claim asks num_pages = height / 8 = 4,
but __OLED_init stores 8. -/
theorem OLED_init_num_pages_ne_height_div8 :
    (__OLED_init i2cIdle 128 32 (List.replicate 512 0) 50000 60).2.1.num_pages
      ≠ 32 / 8 := by
  decide

/-! ## C3: scheduler admission -/

/-- C3: the scheduler admits at most one in-flight transaction.  From IDLE a
first OLED_i2c_tx_shed returns true; a second call with no intervening
completion returns false and leaves the installed descriptor (the whole driver
state) unchanged; and from the terminal STOP state one ISR invocation issues
the completion callback, resets the FSM to IDLE, and a subsequent
OLED_i2c_tx_shed returns true. -/
theorem OLED_i2c_tx_shed_single_slot (s t : I2C) (a1 a2 a3 : Nat)
    (p1 p2 p3 d1 d2 d3 : Option (List Nat)) (c1 c2 c3 : Nat) (f1 f2 f3 : Bool)
    (hs : s.st = I2C_State_e.idle) (ht : t.st = I2C_State_e.stop) :
    (OLED_i2c_tx_shed s a1 p1 d1 c1 f1).1 = true ∧
    (OLED_i2c_tx_shed (OLED_i2c_tx_shed s a1 p1 d1 c1 f1).2 a2 p2 d2 c2 f2).1 = false ∧
    (OLED_i2c_tx_shed (OLED_i2c_tx_shed s a1 p1 d1 c1 f1).2 a2 p2 d2 c2 f2).2
      = (OLED_i2c_tx_shed s a1 p1 d1 c1 f1).2 ∧
    ∃ t' evs, ISR_step t = some (t', evs) ∧ t'.st = I2C_State_e.idle ∧
      I2CEvent.callback t.cbk ∈ evs ∧
      (OLED_i2c_tx_shed t' a3 p3 d3 c3 f3).1 = true := by
  refine ⟨?_, ?_, ?_, ?_⟩
  · simp [OLED_i2c_tx_shed, hs]
  · simp [OLED_i2c_tx_shed, hs]
  · simp [OLED_i2c_tx_shed, hs]
  · refine ⟨{ t with st := I2C_State_e.idle },
      [I2CEvent.stopsig, I2CEvent.callback t.cbk], ?_, rfl, by simp, ?_⟩
    · simp [ISR_step, ht]
    · simp [OLED_i2c_tx_shed]

/-- C3 witness: the single-slot property at a concrete idle state and a
concrete terminal state. -/
theorem OLED_i2c_tx_shed_single_slot_witness :
    (OLED_i2c_tx_shed i2cIdle 60 (some [1]) none 5 true).1 = true ∧
    (OLED_i2c_tx_shed (OLED_i2c_tx_shed i2cIdle 60 (some [1]) none 5 true).2
        61 none (some [2]) 6 false).1 = false ∧
    (OLED_i2c_tx_shed (OLED_i2c_tx_shed i2cIdle 60 (some [1]) none 5 true).2
        61 none (some [2]) 6 false).2
      = (OLED_i2c_tx_shed i2cIdle 60 (some [1]) none 5 true).2 ∧
    ∃ t' evs,
      ISR_step { i2cIdle with st := I2C_State_e.stop, cbk := 5 } = some (t', evs) ∧
      t'.st = I2C_State_e.idle ∧
      I2CEvent.callback ({ i2cIdle with st := I2C_State_e.stop, cbk := 5 } : I2C).cbk ∈ evs ∧
      (OLED_i2c_tx_shed t' 62 none none 7 true).1 = true :=
  OLED_i2c_tx_shed_single_slot i2cIdle { i2cIdle with st := I2C_State_e.stop, cbk := 5 }
    60 61 62 (some [1]) none none none (some [2]) none 5 6 7 true false true rfl rfl

/-! ## C8: the two-length staircase rasterizer contradicts its own design -/

/-- C8 (code bug): the line from (0,0) to (7,2) is a general inclined line
with delta_big = 7, delta_small = 2, delta_big % delta_small = 1.  The comment
block at oled.c lines 512-525 (and the claim) promise delta_small = 2 stairs
with run lengths 3 and 4 and both endpoints drawn; the code instead draws the
pixels (0,1)..(5,1),(6,2) - runs of lengths 6 and 1 - and draws neither
endpoint.  Byte value 2 is bit 1 set (pixel row y = 1), byte value 4 is bit 2
set (pixel row y = 2). -/
theorem OLED_put_line_staircase_endpoints_bug :
    (OLED_put_line oled16x8 0 0 7 2 1).map
        (fun r => (r.1, r.2.frame_buffer, readPixel r.2 0 0, readPixel r.2 7 2))
      = some (OLED_EOK, [2, 2, 2, 2, 2, 2, 4, 0, 0, 0, 0, 0, 0, 0, 0, 0],
              false, false) := by
  decide

/-! ## Counterexamples: divergence on width-0 handles -/

/-- C6 counterexample: on a handle with width 0 no x clamp can fire
(w_max wraps to 255), so the rectangle (0,0)-(255,0) passes the bounds check
and the fill loop for (x = 0; x <= 255; x++) never terminates: the call does
not return success. -/
theorem OLED_put_rectangle_zero_width_no_return :
    OLED_put_rectangle oledW0 0 0 255 0 (OLED_FILL ||| OLED_BLACK) = none := by
  decide

/-- C10 counterexample: on a handle with width 0 the input (255,5)-(255,5)
passes the parameter and per-axis clamp checks, but the horizontal loop
for (x = 255; x <= 255; x++) never terminates, so execution reaches no
return statement. -/
theorem OLED_put_line_zero_width_no_return :
    OLED_put_line oledW0 255 5 255 5 0 = none := by
  decide

/-! ## C2 counterexample: the lock is not released at the 8th page write -/

/-- C2 counterexample: run the refresh pipeline of an 8-page display for 16
completions - at that point exactly 8 page-write transactions (the ones
carrying a payload) have completed, the last one for page 7, yet busy_lock is
still 0 (locked) and one more cursor-set transaction is still in flight; so
the lock is not released at the completion of the 8th page write. -/
theorem OLED_refresh_lock_not_released_at_eighth :
    ((runSteps 16 (OLED_refresh oledPipe1)).2.filter
        (fun t => t.payload.isSome)).length = 8 ∧
    (runSteps 16 (OLED_refresh oledPipe1)).2.getLast? =
      some { addr := 60, pfx := some _i2c_cmd_datamark, payload := some [7],
             cbk := Cbk.setwritepage, fastfail := true } ∧
    (runSteps 16 (OLED_refresh oledPipe1)).1.oled.busy_lock = 0 ∧
    (runSteps 16 (OLED_refresh oledPipe1)).1.inflight.isSome = true := by
  decide

/-! ## Frame-buffer bit lemmas -/

theorem OLED_put_pixel__width (o : OLED) (x y : Nat) (c : Bool) :
    (OLED_put_pixel_ o x y c).width = o.width := rfl

theorem OLED_put_pixel__height (o : OLED) (x y : Nat) (c : Bool) :
    (OLED_put_pixel_ o x y c).height = o.height := rfl

theorem OLED_put_pixel__fb_length (o : OLED) (x y : Nat) (c : Bool) :
    (OLED_put_pixel_ o x y c).frame_buffer.length = o.frame_buffer.length := by
  simp [OLED_put_pixel_]

/-- A valid pixel byte index lies inside a frame buffer of the documented
size width * ceil(height / 8). -/
theorem pixel_idx_lt {w h len x y : Nat} (hx : x < w) (hy : y < h)
    (hfb : w * ((h + 7) / 8) ≤ len) : (y / 8) * w + x < len := by
  have h1 : y / 8 < (h + 7) / 8 := by omega
  calc (y / 8) * w + x < (y / 8 + 1) * w := by
        have : (y / 8 + 1) * w = (y / 8) * w + w := by ring
        omega
    _ ≤ ((h + 7) / 8) * w := Nat.mul_le_mul_right w h1
    _ = w * ((h + 7) / 8) := Nat.mul_comm _ _
    _ ≤ len := hfb

/-- Uniqueness of the page-times-width-plus-column decomposition. -/
theorem pixel_index_inj {w p q a x : Nat} (ha : a < w) (hx : x < w)
    (h : p * w + a = q * w + x) : p = q ∧ a = x := by
  have key : ∀ p q a x : Nat, a < w → x < w → p * w + a = q * w + x → p ≤ q → p = q := by
    intro p q a x ha hx h hle
    by_contra hne
    have hlt : p + 1 ≤ q := by omega
    have h1 : (p + 1) * w ≤ q * w := Nat.mul_le_mul_right w hlt
    have h2 : (p + 1) * w = p * w + w := by ring
    omega
  have hpq : p = q := by
    rcases Nat.le_total p q with hle | hle
    · exact key p q a x ha hx h hle
    · exact (key q p x a hx ha h.symm hle).symm
  exact ⟨hpq, by subst hpq; omega⟩

/-- Writing bit k of a byte: the written bit has the written value. -/
theorem byte_write_testBit_self (bv k : Nat) (hk : k < 8) (c : Bool) :
    (if c then bv ||| (1 <<< k) else bv &&& (255 ^^^ (1 <<< k))).testBit k = c := by
  have h255 : (255 : Nat) = 2 ^ 8 - 1 := by norm_num
  cases c with
  | false =>
      rw [if_neg (by decide : ¬(false = true)), Nat.shiftLeft_eq, one_mul,
          Nat.testBit_land, Nat.testBit_xor, Nat.testBit_two_pow_self, h255,
          Nat.testBit_two_pow_sub_one]
      simp [hk]
  | true =>
      rw [if_pos rfl, Nat.shiftLeft_eq, one_mul, Nat.testBit_lor,
          Nat.testBit_two_pow_self, Bool.or_true]

/-- Writing bit k of a byte: any other bit j < 8 is unchanged. -/
theorem byte_write_testBit_other (bv k j : Nat) (hj : j < 8) (hne : j ≠ k) (c : Bool) :
    (if c then bv ||| (1 <<< k) else bv &&& (255 ^^^ (1 <<< k))).testBit j = bv.testBit j := by
  have h255 : (255 : Nat) = 2 ^ 8 - 1 := by norm_num
  cases c with
  | false =>
      rw [if_neg (by decide : ¬(false = true)), Nat.shiftLeft_eq, one_mul,
          Nat.testBit_land, Nat.testBit_xor,
          Nat.testBit_two_pow_of_ne (by omega : k ≠ j), h255,
          Nat.testBit_two_pow_sub_one]
      simp [hj]
  | true =>
      rw [if_pos rfl, Nat.shiftLeft_eq, one_mul, Nat.testBit_lor,
          Nat.testBit_two_pow_of_ne (by omega : k ≠ j), Bool.or_false]

/-- Reading any in-bounds pixel after an in-bounds OLED_put_pixel_: the
written pixel has the written value, every other pixel is unchanged. -/
theorem readPixel_put_pixel_ (o : OLED) (x y a b : Nat) (c : Bool)
    (hw : o.width ≤ 255) (hh : o.height ≤ 255)
    (hfb : o.width * ((o.height + 7) / 8) ≤ o.frame_buffer.length)
    (hx : x < o.width) (hy : y < o.height) (ha : a < o.width) (hb : b < o.height) :
    readPixel (OLED_put_pixel_ o x y c) a b =
      if a = x ∧ b = y then c else readPixel o a b := by
  have hx256 : x % 256 = x := Nat.mod_eq_of_lt (by omega)
  have hy256 : y % 256 = y := Nat.mod_eq_of_lt (by omega)
  have hidx : (y / 8) * o.width + x < o.frame_buffer.length := pixel_idx_lt hx hy hfb
  simp only [readPixel, OLED_put_pixel_, hx256, hy256]
  by_cases hidxeq : (b / 8) * o.width + a = (y / 8) * o.width + x
  · obtain ⟨hdiv, hax⟩ := pixel_index_inj ha hx hidxeq
    rw [hidxeq, List.getD_eq_getElem?_getD, List.getElem?_set_self hidx,
        Option.getD_some]
    by_cases hby : b = y
    · have hcond : a = x ∧ b = y := ⟨hax, hby⟩
      rw [if_pos hcond, hby]
      apply byte_write_testBit_self
      omega
    · have hcond : ¬(a = x ∧ b = y) := fun hc => hby hc.2
      rw [if_neg hcond]
      apply byte_write_testBit_other
      · omega
      · omega
  · have hcond : ¬(a = x ∧ b = y) := fun hc => hidxeq (by rw [hc.1, hc.2])
    rw [if_neg hcond, List.getD_eq_getElem?_getD,
        List.getElem?_set_ne (fun hc => hidxeq hc.symm), ← List.getD_eq_getElem?_getD]

/-! ## C1: put_pixel -/

/-- C1: for in-range (x, y), OLED_put_pixel with true returns OLED_EOK and
sets bit (y % 8) of byte frame_buffer[(y / 8) * width + x], with false it
returns OLED_EOK and clears that bit; for out-of-range (x, y) it returns
OLED_EBOUNDS and leaves every byte of the frame buffer unchanged.  The
hypotheses are the uint8_t ranges of the width and height fields and the
documented frame-buffer size width * ceil(height / 8). -/
theorem OLED_put_pixel_spec (o : OLED) (x y : Nat)
    (hw : o.width ≤ 255) (hh : o.height ≤ 255)
    (hfb : o.width * ((o.height + 7) / 8) ≤ o.frame_buffer.length) :
    ((x < o.width ∧ y < o.height) →
      ((OLED_put_pixel o x y true).1 = OLED_EOK ∧
        ((OLED_put_pixel o x y true).2.frame_buffer.getD ((y / 8) * o.width + x) 0).testBit
          (y % 8) = true) ∧
      ((OLED_put_pixel o x y false).1 = OLED_EOK ∧
        ((OLED_put_pixel o x y false).2.frame_buffer.getD ((y / 8) * o.width + x) 0).testBit
          (y % 8) = false)) ∧
    (∀ pixel_state : Bool, (o.width ≤ x ∨ o.height ≤ y) →
      (OLED_put_pixel o x y pixel_state).1 = OLED_EBOUNDS ∧
      (OLED_put_pixel o x y pixel_state).2.frame_buffer = o.frame_buffer) := by
  constructor
  · rintro ⟨hx, hy⟩
    have hnb : ¬(x ≥ o.width ∨ y ≥ o.height) := by omega
    have hset := readPixel_put_pixel_ o x y x y true hw hh hfb hx hy hx hy
    have hclr := readPixel_put_pixel_ o x y x y false hw hh hfb hx hy hx hy
    rw [if_pos ⟨rfl, rfl⟩] at hset hclr
    simp only [readPixel] at hset hclr
    constructor
    · exact ⟨by simp [OLED_put_pixel, hnb], by simpa [OLED_put_pixel, hnb] using hset⟩
    · exact ⟨by simp [OLED_put_pixel, hnb], by simpa [OLED_put_pixel, hnb] using hclr⟩
  · intro ps hout
    have hb : x ≥ o.width ∨ y ≥ o.height := by omega
    exact ⟨by simp [OLED_put_pixel, hb], by simp [OLED_put_pixel, hb]⟩

/-- C1 witness: the put_pixel contract applied to a concrete 16x8 display at
(3, 5). -/
theorem OLED_put_pixel_spec_witness :
    (oled16x8.width ≤ 255 ∧ oled16x8.height ≤ 255 ∧
      oled16x8.width * ((oled16x8.height + 7) / 8) ≤ oled16x8.frame_buffer.length) ∧
    (((3 < oled16x8.width ∧ 5 < oled16x8.height) →
      ((OLED_put_pixel oled16x8 3 5 true).1 = OLED_EOK ∧
        ((OLED_put_pixel oled16x8 3 5 true).2.frame_buffer.getD
          ((5 / 8) * oled16x8.width + 3) 0).testBit (5 % 8) = true) ∧
      ((OLED_put_pixel oled16x8 3 5 false).1 = OLED_EOK ∧
        ((OLED_put_pixel oled16x8 3 5 false).2.frame_buffer.getD
          ((5 / 8) * oled16x8.width + 3) 0).testBit (5 % 8) = false)) ∧
    (∀ pixel_state : Bool, (oled16x8.width ≤ 3 ∨ oled16x8.height ≤ 5) →
      (OLED_put_pixel oled16x8 3 5 pixel_state).1 = OLED_EBOUNDS ∧
      (OLED_put_pixel oled16x8 3 5 pixel_state).2.frame_buffer = oled16x8.frame_buffer)) :=
  ⟨by decide, OLED_put_pixel_spec oled16x8 3 5 (by decide) (by decide) (by decide)⟩

/-! ## Write-set semantics of the rasterizer loops -/

theorem writeAll_width (L : List (Nat × Nat)) (o : OLED) (c : Bool) :
    (writeAll o c L).width = o.width := by
  induction L generalizing o with
  | nil => rfl
  | cons p L ih => exact (ih (OLED_put_pixel_ o p.1 p.2 c)).trans rfl

theorem writeAll_height (L : List (Nat × Nat)) (o : OLED) (c : Bool) :
    (writeAll o c L).height = o.height := by
  induction L generalizing o with
  | nil => rfl
  | cons p L ih => exact (ih (OLED_put_pixel_ o p.1 p.2 c)).trans rfl

theorem writeAll_fb_length (L : List (Nat × Nat)) (o : OLED) (c : Bool) :
    (writeAll o c L).frame_buffer.length = o.frame_buffer.length := by
  induction L generalizing o with
  | nil => rfl
  | cons p L ih =>
      exact (ih (OLED_put_pixel_ o p.1 p.2 c)).trans
        (OLED_put_pixel__fb_length o p.1 p.2 c)

theorem writeAll_append (L1 L2 : List (Nat × Nat)) (o : OLED) (c : Bool) :
    writeAll o c (L1 ++ L2) = writeAll (writeAll o c L1) c L2 := by
  simp [writeAll, List.foldl_append]

theorem foldl_put_eq_writeAll (f : Nat → Nat × Nat) (xs : List Nat) (o : OLED) (c : Bool) :
    xs.foldl (fun acc v => OLED_put_pixel_ acc (f v).1 (f v).2 c) o
      = writeAll o c (xs.map f) := by
  induction xs generalizing o with
  | nil => rfl
  | cons v xs ih => exact ih (OLED_put_pixel_ o (f v).1 (f v).2 c)

theorem foldl_put2_eq_writeAll (f g : Nat → Nat × Nat) (xs : List Nat) (o : OLED) (c : Bool) :
    xs.foldl (fun acc v =>
        OLED_put_pixel_ (OLED_put_pixel_ acc (f v).1 (f v).2 c) (g v).1 (g v).2 c) o
      = writeAll o c (xs.flatMap fun v => [f v, g v]) := by
  induction xs generalizing o with
  | nil => rfl
  | cons v xs ih =>
      exact ih (OLED_put_pixel_ (OLED_put_pixel_ o (f v).1 (f v).2 c) (g v).1 (g v).2 c)

theorem foldl_nested_eq_writeAll (ys xs : List Nat) (o : OLED) (c : Bool) :
    xs.foldl (fun acc x => ys.foldl (fun acc2 y => OLED_put_pixel_ acc2 x y c) acc) o
      = writeAll o c (xs.flatMap fun x => ys.map fun y => (x, y)) := by
  induction xs generalizing o with
  | nil => rfl
  | cons x xs ih =>
      have hin : ys.foldl (fun acc2 y => OLED_put_pixel_ acc2 x y c) o
          = writeAll o c (ys.map fun y => (x, y)) :=
        foldl_put_eq_writeAll (fun y => (x, y)) ys o c
      rw [List.flatMap_cons, writeAll_append, ← hin]
      exact ih (ys.foldl (fun acc2 y => OLED_put_pixel_ acc2 x y c) o)

/-- Reading after a batch of same-valued writes: a pixel in the write set
reads the written value, any other in-bounds pixel is unchanged. -/
theorem readPixel_writeAll (L : List (Nat × Nat)) (o : OLED) (c : Bool) (a b : Nat)
    (hw : o.width ≤ 255) (hh : o.height ≤ 255)
    (hfb : o.width * ((o.height + 7) / 8) ≤ o.frame_buffer.length)
    (hL : ∀ p ∈ L, p.1 < o.width ∧ p.2 < o.height)
    (ha : a < o.width) (hb : b < o.height) :
    readPixel (writeAll o c L) a b = if (a, b) ∈ L then c else readPixel o a b := by
  induction L generalizing o with
  | nil => simp [writeAll]
  | cons p L ih =>
      have hp := hL p (by simp)
      have hL' : ∀ q ∈ L, q.1 < (OLED_put_pixel_ o p.1 p.2 c).width ∧
          q.2 < (OLED_put_pixel_ o p.1 p.2 c).height := fun q hq => hL q (by simp [hq])
      have hfb' : (OLED_put_pixel_ o p.1 p.2 c).width *
            (((OLED_put_pixel_ o p.1 p.2 c).height + 7) / 8)
          ≤ (OLED_put_pixel_ o p.1 p.2 c).frame_buffer.length := by
        rw [OLED_put_pixel__fb_length]
        exact hfb
      have hstep : writeAll o c (p :: L) = writeAll (OLED_put_pixel_ o p.1 p.2 c) c L := rfl
      rw [hstep, ih (OLED_put_pixel_ o p.1 p.2 c) hw hh hfb' hL' ha hb,
          readPixel_put_pixel_ o p.1 p.2 a b c hw hh hfb hp.1 hp.2 ha hb]
      by_cases hmem : (a, b) ∈ L
      · simp [hmem, List.mem_cons]
      · by_cases heq : a = p.1 ∧ b = p.2
        · have hpe : (a, b) = p := by
            obtain ⟨h1, h2⟩ := heq
            cases p
            simp_all
          simp [hmem, heq, hpe, List.mem_cons]
        · have hpe : (a, b) ≠ p := by
            intro hc
            apply heq
            constructor
            · rw [← hc]
            · rw [← hc]
          simp [hmem, heq, hpe, List.mem_cons]

/-! ## C7: the exact 45-degree diagonal -/

/-- C7: on a display at least 51 pixels wide and tall, put_line(0,0,50,50,0)
returns success and draws exactly the pixels (i, i) for i in 0..=50 - each is
written with the pixel color encoded by params = 0 (bit value
OLED_BLACK &&& 0, i.e. the WHITE level) - and no other pixel of the frame
buffer changes.  The C loop at oled.c line 419 tests only y <= stop_y (the
comma operator discards x <= stop_x), and x tracks y exactly on this branch. -/
theorem OLED_put_line_diag_spec (o : OLED)
    (hw1 : 51 ≤ o.width) (hw : o.width ≤ 255) (hh1 : 51 ≤ o.height) (hh : o.height ≤ 255)
    (hfb : o.width * ((o.height + 7) / 8) ≤ o.frame_buffer.length) :
    ∃ o', OLED_put_line o 0 0 50 50 0 = some (OLED_EOK, o') ∧
      o'.width = o.width ∧ o'.height = o.height ∧
      ∀ a b, a < o.width → b < o.height →
        readPixel o' a b =
          if a = b ∧ a ≤ 50 then decide ((OLED_BLACK &&& 0) ≠ 0) else readPixel o a b := by
  have hwmax : ((o.width + 255) % 256) = o.width - 1 := by omega
  have hhmax : ((o.height + 255) % 256) = o.height - 1 := by omega
  have hp : ¬((0 : Nat) > OLED_BLACK ||| OLED_FILL) := by decide
  have hc1 : ¬((0 : Nat) > o.width - 1) := by omega
  have hc2 : ¬((50 : Nat) > o.width - 1) := by omega
  have hc3 : ¬((0 : Nat) > o.height - 1) := by omega
  have hc4 : ¬((50 : Nat) > o.height - 1) := by omega
  have h1 : OLED_put_line o 0 0 50 50 0 = lineCore o false 0 0 50 50 := by
    simp only [OLED_put_line, clampOne, hwmax, hhmax, if_neg hp, if_neg hc1, if_neg hc2,
               if_neg hc3, if_neg hc4, normSwap]
    norm_num
  have h2 : lineCore o false 0 0 50 50
      = some (OLED_EOK, (List.range' 0 51).foldl
          (fun acc y => OLED_put_pixel_ acc (0 + (y - 0)) y false) o) := by
    simp only [lineCore, u8forLe]
    norm_num
  have h3 : (List.range' 0 51).foldl
        (fun acc y => OLED_put_pixel_ acc (0 + (y - 0)) y false) o
      = writeAll o false ((List.range' 0 51).map fun y => (0 + (y - 0), y)) :=
    foldl_put_eq_writeAll (fun y => (0 + (y - 0), y)) (List.range' 0 51) o false
  refine ⟨_, h1.trans h2, ?_, ?_, ?_⟩
  · rw [h3, writeAll_width]
  · rw [h3, writeAll_height]
  · intro a b ha hb
    rw [h3, readPixel_writeAll _ o false a b hw hh hfb ?_ ha hb]
    · have hmem : ((a, b) ∈ (List.range' 0 51).map fun y => (0 + (y - 0), y))
          ↔ (a = b ∧ a ≤ 50) := by
        simp only [List.mem_map, List.mem_range'_1, Prod.mk.injEq]
        constructor
        · rintro ⟨y, hy, h1, h2⟩
          omega
        · rintro ⟨rfl, hle⟩
          exact ⟨a, by omega, by omega, rfl⟩
      by_cases hd : a = b ∧ a ≤ 50
      · rw [if_pos (hmem.mpr hd), if_pos hd]
        decide
      · rw [if_neg (fun hc => hd (hmem.mp hc)), if_neg hd]
    · rintro p hp2
      simp only [List.mem_map, List.mem_range'_1] at hp2
      obtain ⟨y, hy, rfl⟩ := hp2
      constructor
      · simp only []
        omega
      · simp only []
        omega

/-- C7 witness: the diagonal property applied to a concrete 64x64 display. -/
theorem OLED_put_line_diag_spec_witness :
    (51 ≤ oled64x64.width ∧ oled64x64.width ≤ 255 ∧ 51 ≤ oled64x64.height ∧
      oled64x64.height ≤ 255 ∧
      oled64x64.width * ((oled64x64.height + 7) / 8) ≤ oled64x64.frame_buffer.length) ∧
    ∃ o', OLED_put_line oled64x64 0 0 50 50 0 = some (OLED_EOK, o') ∧
      o'.width = oled64x64.width ∧ o'.height = oled64x64.height ∧
      ∀ a b, a < oled64x64.width → b < oled64x64.height →
        readPixel o' a b =
          if a = b ∧ a ≤ 50 then decide ((OLED_BLACK &&& 0) ≠ 0)
          else readPixel oled64x64 a b :=
  ⟨by refine ⟨by decide, by decide, by decide, by decide, ?_⟩
      simp only [oled64x64, List.length_replicate]
      norm_num,
   OLED_put_line_diag_spec oled64x64 (by decide) (by decide) (by decide) (by decide)
     (by simp only [oled64x64, List.length_replicate]
         norm_num)⟩

/-! ## C6: put_rectangle -/

theorem clampOne_fst (v m : Nat) : (clampOne v m).1 = min v m := by
  unfold clampOne
  split_ifs <;> omega

theorem clampOne_snd (v m : Nat) : (clampOne v m).2 = if v > m then 1 else 0 := by
  unfold clampOne
  split_ifs <;> rfl

theorem foldl_outline_rows_eq_writeAll (sy ty : Nat) (xs : List Nat) (o : OLED) (c : Bool) :
    xs.foldl (fun acc x => OLED_put_pixel_ (OLED_put_pixel_ acc x sy c) x ty c) o
      = writeAll o c (xs.flatMap fun x => [(x, sy), (x, ty)]) :=
  foldl_put2_eq_writeAll (fun x => (x, sy)) (fun x => (x, ty)) xs o c

theorem foldl_outline_cols_eq_writeAll (sx tx : Nat) (ys : List Nat) (o : OLED) (c : Bool) :
    ys.foldl (fun acc y => OLED_put_pixel_ (OLED_put_pixel_ acc sx y c) tx y c) o
      = writeAll o c (ys.flatMap fun y => [(sx, y), (tx, y)]) :=
  foldl_put2_eq_writeAll (fun y => (sx, y)) (fun y => (tx, y)) ys o c

/-- C6 (amended): on a display with nonzero width and height, for valid
params: if all four coordinate clamps fire, put_rectangle returns OLED_EBOUNDS
and mutates nothing; otherwise, with (sx, sy) - (tx, ty) the clamped and
min/max-normalized corners, fill mode writes the pixel color encoded by params
at exactly the pixels of the box and outline mode at exactly the pixels of its
four border edges, every other pixel is unchanged, and the call returns
success.  (The unamended claim fails on width-0 handles, where the fill loop
can hang: see the counterexample theorem.) -/
theorem OLED_put_rectangle_spec (o : OLED) (x_from y_from x_to y_to params : Nat)
    (sx sy tx ty : Nat)
    (hw1 : 1 ≤ o.width) (hw : o.width ≤ 255) (hh1 : 1 ≤ o.height) (hh : o.height ≤ 255)
    (hfb : o.width * ((o.height + 7) / 8) ≤ o.frame_buffer.length)
    (hp : params ≤ OLED_BLACK ||| OLED_FILL)
    (hsx : sx = min (min x_to (o.width - 1)) (min x_from (o.width - 1)))
    (hsy : sy = min (min y_to (o.height - 1)) (min y_from (o.height - 1)))
    (htx : tx = max (min x_to (o.width - 1)) (min x_from (o.width - 1)))
    (hty : ty = max (min y_to (o.height - 1)) (min y_from (o.height - 1))) :
    ((x_from > o.width - 1 ∧ x_to > o.width - 1 ∧ y_from > o.height - 1 ∧
        y_to > o.height - 1) →
      OLED_put_rectangle o x_from y_from x_to y_to params = some (OLED_EBOUNDS, o)) ∧
    (¬(x_from > o.width - 1 ∧ x_to > o.width - 1 ∧ y_from > o.height - 1 ∧
        y_to > o.height - 1) →
      ∃ o', OLED_put_rectangle o x_from y_from x_to y_to params = some (OLED_EOK, o') ∧
        o'.width = o.width ∧ o'.height = o.height ∧
        ∀ a b, a < o.width → b < o.height →
          readPixel o' a b =
            if (OLED_FILL &&& params) ≠ 0 then
              (if sx ≤ a ∧ a ≤ tx ∧ sy ≤ b ∧ b ≤ ty
               then decide ((OLED_BLACK &&& params) ≠ 0) else readPixel o a b)
            else
              (if (sx ≤ a ∧ a ≤ tx ∧ (b = sy ∨ b = ty)) ∨
                  (sy ≤ b ∧ b ≤ ty ∧ (a = sx ∨ a = tx))
               then decide ((OLED_BLACK &&& params) ≠ 0) else readPixel o a b)) := by
  have hwmax : ((o.width + 255) % 256) = o.width - 1 := by omega
  have hhmax : ((o.height + 255) % 256) = o.height - 1 := by omega
  have h3 : OLED_BLACK ||| OLED_FILL = 3 := by decide
  have hparam : ¬(params > OLED_BLACK ||| OLED_FILL) := by omega
  have hsum : ((if x_from > o.width - 1 then 1 else 0) +
        (if x_to > o.width - 1 then 1 else 0) +
        (if y_from > o.height - 1 then 1 else 0) +
        (if y_to > o.height - 1 then 1 else 0) ≥ 4) ↔
      (x_from > o.width - 1 ∧ x_to > o.width - 1 ∧ y_from > o.height - 1 ∧
        y_to > o.height - 1) := by
    split_ifs <;> omega
  constructor
  · intro hall
    simp only [OLED_put_rectangle, if_neg hparam, clampOne_fst, clampOne_snd,
               hwmax, hhmax]
    rw [if_pos (hsum.mpr hall)]
  · intro hnall
    simp only [OLED_put_rectangle, if_neg hparam, clampOne_fst, clampOne_snd,
               hwmax, hhmax]
    rw [if_neg (fun hc => hnall (hsum.mp hc)), ← hsx, ← htx, ← hsy, ← hty]
    have hsxtx : sx ≤ tx := by omega
    have hsyty : sy ≤ ty := by omega
    have htxw : tx ≤ o.width - 1 := by omega
    have htyh : ty ≤ o.height - 1 := by omega
    have hux : u8forLe sx tx = some (List.range' sx (tx + 1 - sx)) := by
      unfold u8forLe
      rw [if_neg (by omega : ¬(tx = 255))]
    have huy : u8forLe sy ty = some (List.range' sy (ty + 1 - sy)) := by
      unfold u8forLe
      rw [if_neg (by omega : ¬(ty = 255))]
    rw [hux, huy]
    have hxmem : ∀ a : Nat, a ∈ List.range' sx (tx + 1 - sx) ↔ (sx ≤ a ∧ a ≤ tx) := by
      intro a
      rw [List.mem_range'_1]
      omega
    have hymem : ∀ b : Nat, b ∈ List.range' sy (ty + 1 - sy) ↔ (sy ≤ b ∧ b ≤ ty) := by
      intro b
      rw [List.mem_range'_1]
      omega
    by_cases hfill : (OLED_FILL &&& params) ≠ 0
    · rw [if_pos (by simp [hfill])]
      simp only [Option.some_bind, Option.map_some']
      rw [foldl_nested_eq_writeAll]
      refine ⟨_, rfl, ?_, ?_, ?_⟩
      · rw [writeAll_width]
      · rw [writeAll_height]
      · intro a b ha hb
        rw [if_pos hfill]
        have hmem : ((a, b) ∈ (List.range' sx (tx + 1 - sx)).flatMap
              fun x => (List.range' sy (ty + 1 - sy)).map fun y => (x, y)) ↔
            (sx ≤ a ∧ a ≤ tx ∧ sy ≤ b ∧ b ≤ ty) := by
          simp only [List.mem_flatMap, List.mem_map, Prod.mk.injEq, List.mem_range'_1]
          constructor
          · rintro ⟨x, hx, y, hy, h1, h2⟩
            omega
          · rintro ⟨h1, h2, h4, h5⟩
            exact ⟨a, by omega, b, by omega, rfl, rfl⟩
        rw [readPixel_writeAll _ o _ a b hw hh hfb ?_ ha hb]
        · by_cases hreg : sx ≤ a ∧ a ≤ tx ∧ sy ≤ b ∧ b ≤ ty
          · rw [if_pos (hmem.mpr hreg), if_pos hreg]
          · rw [if_neg (fun hc => hreg (hmem.mp hc)), if_neg hreg]
        · rintro p hp2
          simp only [List.mem_flatMap, List.mem_map, List.mem_range'_1] at hp2
          obtain ⟨x, hx, y, hy, rfl⟩ := hp2
          exact ⟨by omega, by omega⟩
    · rw [if_neg (by simp [hfill])]
      simp only [Option.some_bind, Option.map_some']
      rw [foldl_outline_rows_eq_writeAll, foldl_outline_cols_eq_writeAll,
          ← writeAll_append]
      refine ⟨_, rfl, ?_, ?_, ?_⟩
      · rw [writeAll_width]
      · rw [writeAll_height]
      · intro a b ha hb
        rw [if_neg hfill]
        have hmem : ((a, b) ∈ ((List.range' sx (tx + 1 - sx)).flatMap
                fun x => [(x, sy), (x, ty)]) ++
              ((List.range' sy (ty + 1 - sy)).flatMap fun y => [(sx, y), (tx, y)])) ↔
            ((sx ≤ a ∧ a ≤ tx ∧ (b = sy ∨ b = ty)) ∨
              (sy ≤ b ∧ b ≤ ty ∧ (a = sx ∨ a = tx))) := by
          simp only [List.mem_append, List.mem_flatMap, List.mem_range'_1,
                     List.mem_cons, List.not_mem_nil, or_false, Prod.mk.injEq]
          constructor
          · rintro (⟨x, hx, ⟨h1, h2⟩ | ⟨h1, h2⟩⟩ | ⟨y, hy, ⟨h1, h2⟩ | ⟨h1, h2⟩⟩) <;> omega
          · rintro (⟨h1, h2, h4 | h4⟩ | ⟨h1, h2, h4 | h4⟩)
            · exact Or.inl ⟨a, by omega, Or.inl ⟨rfl, by omega⟩⟩
            · exact Or.inl ⟨a, by omega, Or.inr ⟨rfl, by omega⟩⟩
            · exact Or.inr ⟨b, by omega, Or.inl ⟨by omega, rfl⟩⟩
            · exact Or.inr ⟨b, by omega, Or.inr ⟨by omega, rfl⟩⟩
        rw [readPixel_writeAll _ o _ a b hw hh hfb ?_ ha hb]
        · by_cases hreg : (sx ≤ a ∧ a ≤ tx ∧ (b = sy ∨ b = ty)) ∨
              (sy ≤ b ∧ b ≤ ty ∧ (a = sx ∨ a = tx))
          · rw [if_pos (hmem.mpr hreg), if_pos hreg]
          · rw [if_neg (fun hc => hreg (hmem.mp hc)), if_neg hreg]
        · rintro p hp2
          simp only [List.mem_append, List.mem_flatMap, List.mem_range'_1,
                     List.mem_cons, List.not_mem_nil, or_false] at hp2
          rcases hp2 with ⟨x, hx, rfl | rfl⟩ | ⟨y, hy, rfl | rfl⟩ <;>
            exact ⟨by omega, by omega⟩

/-- C6 witness: the rectangle contract applied to the 16x8 display for the box
(2,1)-(5,3) with params = OLED_FILL | OLED_BLACK. -/
theorem OLED_put_rectangle_spec_witness :
    (1 ≤ oled16x8.width ∧ oled16x8.width ≤ 255 ∧ 1 ≤ oled16x8.height ∧
      oled16x8.height ≤ 255 ∧
      oled16x8.width * ((oled16x8.height + 7) / 8) ≤ oled16x8.frame_buffer.length ∧
      3 ≤ OLED_BLACK ||| OLED_FILL ∧
      2 = min (min 5 (oled16x8.width - 1)) (min 2 (oled16x8.width - 1)) ∧
      1 = min (min 3 (oled16x8.height - 1)) (min 1 (oled16x8.height - 1)) ∧
      5 = max (min 5 (oled16x8.width - 1)) (min 2 (oled16x8.width - 1)) ∧
      3 = max (min 3 (oled16x8.height - 1)) (min 1 (oled16x8.height - 1))) ∧
    (((2 > oled16x8.width - 1 ∧ 5 > oled16x8.width - 1 ∧ 1 > oled16x8.height - 1 ∧
        3 > oled16x8.height - 1) →
      OLED_put_rectangle oled16x8 2 1 5 3 3 = some (OLED_EBOUNDS, oled16x8)) ∧
    (¬(2 > oled16x8.width - 1 ∧ 5 > oled16x8.width - 1 ∧ 1 > oled16x8.height - 1 ∧
        3 > oled16x8.height - 1) →
      ∃ o', OLED_put_rectangle oled16x8 2 1 5 3 3 = some (OLED_EOK, o') ∧
        o'.width = oled16x8.width ∧ o'.height = oled16x8.height ∧
        ∀ a b, a < oled16x8.width → b < oled16x8.height →
          readPixel o' a b =
            if (OLED_FILL &&& 3) ≠ 0 then
              (if 2 ≤ a ∧ a ≤ 5 ∧ 1 ≤ b ∧ b ≤ 3
               then decide ((OLED_BLACK &&& 3) ≠ 0) else readPixel oled16x8 a b)
            else
              (if (2 ≤ a ∧ a ≤ 5 ∧ (b = 1 ∨ b = 3)) ∨
                  (1 ≤ b ∧ b ≤ 3 ∧ (a = 2 ∨ a = 5))
               then decide ((OLED_BLACK &&& 3) ≠ 0) else readPixel oled16x8 a b))) :=
  ⟨by decide,
   OLED_put_rectangle_spec oled16x8 2 1 5 3 3 2 1 5 3 (by decide) (by decide) (by decide)
     (by decide) (by decide) (by decide) (by decide) (by decide) (by decide) (by decide)⟩

/-! ## C4: the byte stream of an admitted transaction -/

/-- Splitting a run of the interrupt handler. -/
theorem runISR_add (m n : Nat) (s : I2C) :
    runISR (m + n) s = (runISR m s).bind fun p =>
      (runISR n p.1).map fun q => (q.1, p.2 ++ q.2) := by
  induction m generalizing s with
  | zero =>
      rw [Nat.zero_add]
      cases h : runISR n s with
      | none => simp [runISR, h]
      | some q => simp [runISR, h]
  | succ m ih =>
      have harith : m + 1 + n = (m + n) + 1 := by omega
      rw [harith]
      cases hs : ISR_step s with
      | none => simp [runISR, hs]
      | some se =>
          simp only [runISR, hs, Option.some_bind]
          rw [ih se.1]
          cases hm : runISR m se.1 with
          | none => simp
          | some p =>
              cases hn : runISR n p.1 with
              | none => simp [hn]
              | some q => simp [hn]

/-- The WRITEPREFIX phase: with a non-empty prefix installed, one interrupt
per byte transmits the prefix bytes in order, then moves to WRITEBYTE if a
payload is present and to STOP otherwise. -/
theorem runISR_pfx (l : List Nat) (hne : l ≠ []) (dev : Nat)
    (data : Option (List Nat)) (ff : Bool) (cbk : Nat) :
    runISR l.length ⟨I2C_State_e.writeprefix_, dev, some l, data, ff, cbk⟩
      = some (⟨if data.isNone then I2C_State_e.stop else I2C_State_e.writebyte,
               dev, some [], data, ff, cbk⟩, l.map I2CEvent.twdr) := by
  induction l with
  | nil => exact absurd rfl hne
  | cons b t ih =>
      cases t with
      | nil => simp [runISR, ISR_step]
      | cons b2 t2 =>
          have h1 : ISR_step ⟨I2C_State_e.writeprefix_, dev, some (b :: b2 :: t2), data, ff, cbk⟩
              = some (⟨I2C_State_e.writeprefix_, dev, some (b2 :: t2), data, ff, cbk⟩,
                      [I2CEvent.twdr b]) := by
            simp [ISR_step]
          have hlen : (b :: b2 :: t2 : List Nat).length = 1 + (b2 :: t2).length := by
            simp only [List.length_cons]
            omega
          rw [hlen, runISR_add]
          have hone : runISR 1 ⟨I2C_State_e.writeprefix_, dev, some (b :: b2 :: t2),
              data, ff, cbk⟩ = some (⟨I2C_State_e.writeprefix_, dev, some (b2 :: t2),
              data, ff, cbk⟩, [I2CEvent.twdr b]) := by
            simp [runISR, h1]
          rw [hone]
          simp only [Option.some_bind]
          rw [ih (by simp)]
          simp

/-- The WRITEBYTE phase: one interrupt per byte transmits the payload bytes in
order, then moves to STOP. -/
theorem runISR_data (l : List Nat) (hne : l ≠ []) (dev : Nat)
    (pfx : Option (List Nat)) (ff : Bool) (cbk : Nat) :
    runISR l.length ⟨I2C_State_e.writebyte, dev, pfx, some l, ff, cbk⟩
      = some (⟨I2C_State_e.stop, dev, pfx, some [], ff, cbk⟩, l.map I2CEvent.twdr) := by
  induction l with
  | nil => exact absurd rfl hne
  | cons b t ih =>
      cases t with
      | nil => simp [runISR, ISR_step]
      | cons b2 t2 =>
          have h1 : ISR_step ⟨I2C_State_e.writebyte, dev, pfx, some (b :: b2 :: t2), ff, cbk⟩
              = some (⟨I2C_State_e.writebyte, dev, pfx, some (b2 :: t2), ff, cbk⟩,
                      [I2CEvent.twdr b]) := by
            simp [ISR_step]
          have hlen : (b :: b2 :: t2 : List Nat).length = 1 + (b2 :: t2).length := by
            simp only [List.length_cons]
            omega
          rw [hlen, runISR_add]
          have hone : runISR 1 ⟨I2C_State_e.writebyte, dev, pfx, some (b :: b2 :: t2),
              ff, cbk⟩ = some (⟨I2C_State_e.writebyte, dev, pfx, some (b2 :: t2),
              ff, cbk⟩, [I2CEvent.twdr b]) := by
            simp [runISR, h1]
          rw [hone]
          simp only [Option.some_bind]
          rw [ih (by simp)]
          simp

/-- C4: for every admitted transaction (prefix of length p when present,
payload of length n when present), the p + n + 2 interrupt events transmit
exactly: the device address byte (addr << 1) | 0, then the prefix bytes in
order, then the payload bytes in order, then the stop signal and exactly one
completion-callback invocation with the stored context; a null prefix or
payload skips its phase.  The FSM distinguishes the phases by NULL pointer
checks, so a present prefix or payload is non-empty (a non-null zero-length
buffer would make the C code read past the buffer; no caller constructs one). -/
theorem ISR_transaction_spec (s0 : I2C) (addr cbk : Nat) (ff : Bool)
    (pfx data : Option (List Nat))
    (hs : s0.st = I2C_State_e.idle)
    (hp : ∀ l, pfx = some l → l ≠ [])
    (hd : ∀ l, data = some l → l ≠ []) :
    (OLED_i2c_tx_shed s0 addr pfx data cbk ff).1 = true ∧
    ∃ sf, runISR (1 + (pfx.getD []).length + (data.getD []).length + 1)
            (OLED_i2c_tx_shed s0 addr pfx data cbk ff).2
          = some (sf, [I2CEvent.twdr ((addr <<< 1) % 256)] ++
                      (pfx.getD []).map I2CEvent.twdr ++
                      (data.getD []).map I2CEvent.twdr ++
                      [I2CEvent.stopsig, I2CEvent.callback cbk]) ∧
      sf.st = I2C_State_e.idle := by
  have hshed : OLED_i2c_tx_shed s0 addr pfx data cbk ff =
      (true, ⟨I2C_State_e.slaveaddr, (addr <<< 1) % 256, pfx, data, ff, cbk⟩) := by
    simp [OLED_i2c_tx_shed, hs]
  refine ⟨by rw [hshed], ?_⟩
  rw [hshed]
  have hstop : ∀ p d : Option (List Nat),
      runISR 1 ⟨I2C_State_e.stop, (addr <<< 1) % 256, p, d, ff, cbk⟩
        = some (⟨I2C_State_e.idle, (addr <<< 1) % 256, p, d, ff, cbk⟩,
                [I2CEvent.stopsig, I2CEvent.callback cbk]) := by
    intro p d
    simp [runISR, ISR_step]
  cases pfx with
  | none =>
      cases data with
      | none =>
          refine ⟨⟨I2C_State_e.idle, (addr <<< 1) % 256, none, none, ff, cbk⟩, ?_, rfl⟩
          simp [runISR, ISR_step]
      | some ld =>
          have hld := hd ld rfl
          refine ⟨⟨I2C_State_e.idle, (addr <<< 1) % 256, none, some [], ff, cbk⟩, ?_, rfl⟩
          rw [show 1 + (Option.getD (none : Option (List Nat)) []).length +
                (Option.getD (some ld) []).length + 1 = 1 + (ld.length + 1) by
                simp
                omega,
              runISR_add]
          have h1 : runISR 1 ⟨I2C_State_e.slaveaddr, (addr <<< 1) % 256, none, some ld, ff, cbk⟩
              = some (⟨I2C_State_e.writebyte, (addr <<< 1) % 256, none, some ld, ff, cbk⟩,
                      [I2CEvent.twdr ((addr <<< 1) % 256)]) := by
            simp [runISR, ISR_step]
          rw [h1]
          simp only [Option.some_bind]
          rw [runISR_add, runISR_data ld hld ((addr <<< 1) % 256) none ff cbk]
          simp only [Option.some_bind]
          rw [hstop]
          simp
  | some lp =>
      have hlp := hp lp rfl
      cases data with
      | none =>
          refine ⟨⟨I2C_State_e.idle, (addr <<< 1) % 256, some [], none, ff, cbk⟩, ?_, rfl⟩
          rw [show 1 + (Option.getD (some lp) []).length +
                (Option.getD (none : Option (List Nat)) []).length + 1
                = 1 + (lp.length + 1) by
                simp
                omega,
              runISR_add]
          have h1 : runISR 1 ⟨I2C_State_e.slaveaddr, (addr <<< 1) % 256, some lp, none, ff, cbk⟩
              = some (⟨I2C_State_e.writeprefix_, (addr <<< 1) % 256, some lp, none, ff, cbk⟩,
                      [I2CEvent.twdr ((addr <<< 1) % 256)]) := by
            simp [runISR, ISR_step]
          rw [h1]
          simp only [Option.some_bind]
          have h2 : runISR lp.length ⟨I2C_State_e.writeprefix_, (addr <<< 1) % 256,
              some lp, none, ff, cbk⟩
              = some (⟨I2C_State_e.stop, (addr <<< 1) % 256, some [], none, ff, cbk⟩,
                      lp.map I2CEvent.twdr) := by
            simpa using runISR_pfx lp hlp ((addr <<< 1) % 256) none ff cbk
          rw [runISR_add, h2]
          simp only [Option.some_bind]
          rw [hstop]
          simp
      | some ld =>
          have hld := hd ld rfl
          refine ⟨⟨I2C_State_e.idle, (addr <<< 1) % 256, some [], some [], ff, cbk⟩, ?_, rfl⟩
          rw [show 1 + (Option.getD (some lp) []).length +
                (Option.getD (some ld) []).length + 1
                = 1 + (lp.length + (ld.length + 1)) by simp; omega,
              runISR_add]
          have h1 : runISR 1 ⟨I2C_State_e.slaveaddr, (addr <<< 1) % 256, some lp, some ld, ff, cbk⟩
              = some (⟨I2C_State_e.writeprefix_, (addr <<< 1) % 256, some lp, some ld, ff, cbk⟩,
                      [I2CEvent.twdr ((addr <<< 1) % 256)]) := by
            simp [runISR, ISR_step]
          rw [h1]
          simp only [Option.some_bind]
          have h2 : runISR lp.length ⟨I2C_State_e.writeprefix_, (addr <<< 1) % 256,
              some lp, some ld, ff, cbk⟩
              = some (⟨I2C_State_e.writebyte, (addr <<< 1) % 256, some [], some ld, ff, cbk⟩,
                      lp.map I2CEvent.twdr) := by
            simpa using runISR_pfx lp hlp ((addr <<< 1) % 256) (some ld) ff cbk
          rw [runISR_add, h2]
          simp only [Option.some_bind]
          rw [runISR_add, runISR_data ld hld ((addr <<< 1) % 256) (some []) ff cbk]
          simp only [Option.some_bind]
          rw [hstop]
          simp

/-- C4 witness: a transaction with prefix [128, 176] and payload [1, 2, 3]
admitted from the idle engine. -/
theorem ISR_transaction_spec_witness :
    (i2cIdle.st = I2C_State_e.idle ∧
      (∀ l : List Nat, (some [128, 176] : Option (List Nat)) = some l → l ≠ []) ∧
      (∀ l : List Nat, (some [1, 2, 3] : Option (List Nat)) = some l → l ≠ [])) ∧
    ((OLED_i2c_tx_shed i2cIdle 60 (some [128, 176]) (some [1, 2, 3]) 5 true).1 = true ∧
      ∃ sf, runISR (1 + ((some [128, 176] : Option (List Nat)).getD []).length +
              ((some [1, 2, 3] : Option (List Nat)).getD []).length + 1)
              (OLED_i2c_tx_shed i2cIdle 60 (some [128, 176]) (some [1, 2, 3]) 5 true).2
            = some (sf, [I2CEvent.twdr ((60 <<< 1) % 256)] ++
                        ((some [128, 176] : Option (List Nat)).getD []).map I2CEvent.twdr ++
                        ((some [1, 2, 3] : Option (List Nat)).getD []).map I2CEvent.twdr ++
                        [I2CEvent.stopsig, I2CEvent.callback 5]) ∧
        sf.st = I2C_State_e.idle) :=
  ⟨⟨rfl, fun l h => by cases h; decide, fun l h => by cases h; decide⟩,
   ISR_transaction_spec i2cIdle 60 5 true (some [128, 176]) (some [1, 2, 3]) rfl
     (fun l h => by cases h; decide) (fun l h => by cases h; decide)⟩

/-! ## C2 and C9: the refresh pipeline -/

/-- Splitting a pipeline run. -/
theorem runSteps_add (a b : Nat) (s : PState) :
    runSteps (a + b) s = ((runSteps b (runSteps a s).1).1,
      (runSteps a s).2 ++ (runSteps b (runSteps a s).1).2) := by
  induction a generalizing s with
  | zero => simp [runSteps]
  | succ a ih =>
      have harith : a + 1 + b = (a + b) + 1 := by omega
      rw [harith]
      simp only [runSteps]
      rw [ih (completeStep s).1]
      simp [List.append_assoc]

/-- Two pipeline steps starting at the cursor-set transaction for page
k < num_pages: the cursor-set completes (its callback OLED_cbk_writepage
schedules the page-k write and increments cur_page), then the page write
completes (its callback OLED_cbk_setwritepage patches and schedules the
cursor-set for page k + 1). -/
theorem refresh_two_steps (w ht : Nat) (fb : List Nat) (k np ad : Nat) (h : k < np) :
    runSteps 2 ⟨⟨w, ht, fb, k, np, ad, 0⟩,
        some ⟨ad, some (_i2c_cmd_setpage_patched k), none, Cbk.writepage, true⟩⟩
      = (⟨⟨w, ht, fb, k + 1, np, ad, 0⟩,
          some ⟨ad, some (_i2c_cmd_setpage_patched (k + 1)), none, Cbk.writepage, true⟩⟩,
         [⟨ad, some (_i2c_cmd_setpage_patched k), none, Cbk.writepage, true⟩,
          ⟨ad, some _i2c_cmd_datamark, some (pageSlice w fb k), Cbk.setwritepage, true⟩]) := by
  have hstep1 : completeStep ⟨⟨w, ht, fb, k, np, ad, 0⟩,
        some ⟨ad, some (_i2c_cmd_setpage_patched k), none, Cbk.writepage, true⟩⟩
      = (⟨⟨w, ht, fb, k + 1, np, ad, 0⟩,
          some ⟨ad, some _i2c_cmd_datamark, some (pageSlice w fb k), Cbk.setwritepage, true⟩⟩,
         some ⟨ad, some (_i2c_cmd_setpage_patched k), none, Cbk.writepage, true⟩) := by
    simp only [completeStep, runCbk]
    rw [if_neg (by omega : ¬(k ≥ np))]
  simp only [runSteps]
  rw [hstep1]
  simp [completeStep, runCbk]

/-- The pipeline loop invariant: from the cursor-set for page k with
num_pages = k + m, the remaining 2m + 1 completions produce exactly the
tailTrace transactions and end unlocked with no transaction in flight. -/
theorem runSteps_refresh_loop (m : Nat) : ∀ (w ht : Nat) (fb : List Nat) (k ad : Nat),
    runSteps (2 * m + 1) ⟨⟨w, ht, fb, k, k + m, ad, 0⟩,
        some ⟨ad, some (_i2c_cmd_setpage_patched k), none, Cbk.writepage, true⟩⟩
      = (⟨⟨w, ht, fb, k + m, k + m, ad, 1⟩, none⟩, tailTrace ad w fb k m) := by
  induction m with
  | zero =>
      intro w ht fb k ad
      simp [runSteps, completeStep, runCbk, OLED_unlock, tailTrace]
  | succ m ih =>
      intro w ht fb k ad
      have harith : 2 * (m + 1) + 1 = 2 + (2 * m + 1) := by omega
      rw [harith, runSteps_add, refresh_two_steps w ht fb k (k + (m + 1)) ad (by omega)]
      have harith2 : k + (m + 1) = (k + 1) + m := by omega
      rw [harith2, ih w ht fb (k + 1) ad]
      simp [tailTrace]

/-- The lock stays held (busy_lock = 0) at every point strictly before the
final completion of the pipeline. -/
theorem runSteps_refresh_lock (m : Nat) : ∀ (w ht : Nat) (fb : List Nat) (k ad i : Nat),
    i ≤ 2 * m →
    (runSteps i ⟨⟨w, ht, fb, k, k + m, ad, 0⟩,
        some ⟨ad, some (_i2c_cmd_setpage_patched k), none, Cbk.writepage, true⟩⟩).1.oled.busy_lock
      = 0 := by
  induction m with
  | zero =>
      intro w ht fb k ad i hi
      have : i = 0 := by omega
      subst this
      rfl
  | succ m ih =>
      intro w ht fb k ad i hi
      match i with
      | 0 => rfl
      | 1 =>
          simp only [runSteps, completeStep, runCbk]
          rw [if_neg (by omega : ¬(k ≥ k + (m + 1)))]
      | (j + 2) =>
          have harith : j + 2 = 2 + j := by omega
          rw [harith, runSteps_add, refresh_two_steps w ht fb k (k + (m + 1)) ad (by omega)]
          have harith2 : k + (m + 1) = (k + 1) + m := by omega
          rw [harith2]
          exact ih w ht fb (k + 1) ad j (by omega)

/-- The page-write transactions in the pipeline tail are exactly one per page
k, k+1, ..., k+m-1, in increasing order, each carrying the data marker prefix
and that page-s frame-buffer slice. -/
theorem tailTrace_filter_pages (ad w : Nat) (fb : List Nat) (m : Nat) : ∀ k,
    (tailTrace ad w fb k m).filter (fun t => t.payload.isSome)
      = (List.range' k m).map fun p =>
          ⟨ad, some _i2c_cmd_datamark, some (pageSlice w fb p), Cbk.setwritepage, true⟩ := by
  induction m with
  | zero => intro k; rfl
  | succ m ih =>
      intro k
      simp only [tailTrace, List.filter_cons, List.range'_succ, List.map_cons]
      rw [← ih (k + 1)]
      rfl

/-- The pipeline tail contains m + 1 cursor-set transactions. -/
theorem tailTrace_filter_cursor (ad w : Nat) (fb : List Nat) (m : Nat) : ∀ k,
    ((tailTrace ad w fb k m).filter (fun t => t.payload.isNone)).length = m + 1 := by
  induction m with
  | zero => intro k; rfl
  | succ m ih =>
      intro k
      simp only [tailTrace, List.filter_cons]
      simp [ih (k + 1)]

/-- The last completed transaction of the pipeline tail is the extra
cursor-set patched to 0xB0 | (k + m), one page past the last one written. -/
theorem tailTrace_getLast (ad w : Nat) (fb : List Nat) (m : Nat) : ∀ k,
    (tailTrace ad w fb k m).getLast?
      = some ⟨ad, some (_i2c_cmd_setpage_patched (k + m)), none, Cbk.writepage, true⟩ := by
  induction m with
  | zero => intro k; rfl
  | succ m ih =>
      intro k
      have h := ih (k + 1)
      have harith : k + (m + 1) = (k + 1) + m := by omega
      rw [harith]
      simp only [tailTrace, List.getLast?_cons_cons]
      cases htt : tailTrace ad w fb (k + 1) m with
      | nil => cases m <;> simp [tailTrace] at htt
      | cons t ts =>
          rw [List.getLast?_cons_cons, ← htt, h]

/-- C9: a full refresh of an N-page display (N = num_pages) completes
2N + 1 transactions: N + 1 cursor-set transactions and N page-writes; the
last transaction is the extra cursor-set whose page-select byte is patched to
0xB0 | N, an index one past the last valid page; the cooperative lock is
released only in that extra transaction-s completion callback (busy_lock is
still 0 after every earlier completion and 1 only after the final one). -/
theorem OLED_refresh_extra_cursor_set (o : OLED) :
    ((runSteps (2 * o.num_pages + 1) (OLED_refresh o)).2.filter
        fun t => t.payload.isNone).length = o.num_pages + 1 ∧
    ((runSteps (2 * o.num_pages + 1) (OLED_refresh o)).2.filter
        fun t => t.payload.isSome).length = o.num_pages ∧
    (runSteps (2 * o.num_pages + 1) (OLED_refresh o)).2.getLast?
      = some ⟨o.i2c_addr, some (_i2c_cmd_setpage_patched o.num_pages), none,
              Cbk.writepage, true⟩ ∧
    (runSteps (2 * o.num_pages + 1) (OLED_refresh o)).1.oled.busy_lock = 1 ∧
    (runSteps (2 * o.num_pages + 1) (OLED_refresh o)).1.inflight = none ∧
    ∀ i, i ≤ 2 * o.num_pages →
      (runSteps i (OLED_refresh o)).1.oled.busy_lock = 0 := by
  obtain ⟨w, ht, fb, cp, np, ad, bl⟩ := o
  have hrefresh : OLED_refresh ⟨w, ht, fb, cp, np, ad, bl⟩
      = ⟨⟨w, ht, fb, 0, np, ad, 0⟩,
         some ⟨ad, some (_i2c_cmd_setpage_patched 0), none, Cbk.writepage, true⟩⟩ := rfl
  have h0 : 0 + np = np := Nat.zero_add np
  have hloop := runSteps_refresh_loop np w ht fb 0 ad
  rw [h0] at hloop
  simp only [hrefresh]
  refine ⟨?_, ?_, ?_, ?_, ?_, ?_⟩
  · rw [hloop]
    exact tailTrace_filter_cursor ad w fb np 0
  · rw [hloop, tailTrace_filter_pages ad w fb np 0]
    simp
  · rw [hloop]
    have := tailTrace_getLast ad w fb np 0
    rw [h0] at this
    exact this
  · rw [hloop]
  · rw [hloop]
  · intro i hi
    have := runSteps_refresh_lock np w ht fb 0 ad i hi
    rw [h0] at this
    exact this

/-- C2 (amended): for an 8-page display, refresh() causes exactly 8
page-write transactions, one per page in strictly increasing order 0..7 with
payload the width-byte slice at page * width, with the cooperative lock held
continuously from the refresh() call through the completion of the 8th
page-write (the 16th completed transaction); the lock is released only at the
completion of the subsequent extra cursor-set transaction (the 17th).  The
unamended claim - release at the 8th page-write completion itself - is false:
see the counterexample theorem. -/
theorem OLED_refresh_8_pages (o : OLED) (h8 : o.num_pages = 8) :
    ((runSteps 17 (OLED_refresh o)).2.filter fun t => t.payload.isSome)
      = (List.range' 0 8).map (fun p =>
          { addr := o.i2c_addr, pfx := some _i2c_cmd_datamark,
            payload := some (pageSlice o.width o.frame_buffer p),
            cbk := Cbk.setwritepage, fastfail := true }) ∧
    (runSteps 17 (OLED_refresh o)).1.oled.busy_lock = 1 ∧
    ∀ i, i ≤ 16 → (runSteps i (OLED_refresh o)).1.oled.busy_lock = 0 := by
  obtain ⟨w, ht, fb, cp, np, ad, bl⟩ := o
  simp only at h8
  subst h8
  have hrefresh : OLED_refresh ⟨w, ht, fb, cp, 8, ad, bl⟩
      = ⟨⟨w, ht, fb, 0, 8, ad, 0⟩,
         some ⟨ad, some (_i2c_cmd_setpage_patched 0), none, Cbk.writepage, true⟩⟩ := rfl
  have hloop := runSteps_refresh_loop 8 w ht fb 0 ad
  simp only [hrefresh, show (17 : Nat) = 2 * 8 + 1 from rfl]
  refine ⟨?_, ?_, ?_⟩
  · rw [hloop]
    exact tailTrace_filter_pages ad w fb 8 0
  · rw [hloop]
  · intro i hi
    exact runSteps_refresh_lock 8 w ht fb 0 ad i hi

/-- C2 witness: the 8-page pipeline contract at the concrete 1-pixel-wide
display. -/
theorem OLED_refresh_8_pages_witness :
    oledPipe1.num_pages = 8 ∧
    (((runSteps 17 (OLED_refresh oledPipe1)).2.filter fun t => t.payload.isSome)
      = (List.range' 0 8).map (fun p =>
          { addr := oledPipe1.i2c_addr, pfx := some _i2c_cmd_datamark,
            payload := some (pageSlice oledPipe1.width oledPipe1.frame_buffer p),
            cbk := Cbk.setwritepage, fastfail := true }) ∧
    (runSteps 17 (OLED_refresh oledPipe1)).1.oled.busy_lock = 1 ∧
    ∀ i, i ≤ 16 → (runSteps i (OLED_refresh oledPipe1)).1.oled.busy_lock = 0) :=
  ⟨rfl, OLED_refresh_8_pages oledPipe1 rfl⟩

/-- C9 witness: the extra-cursor-set contract at the concrete 1-pixel-wide
display. -/
theorem OLED_refresh_extra_cursor_set_witness :
    ((runSteps (2 * oledPipe1.num_pages + 1) (OLED_refresh oledPipe1)).2.filter
        fun t => t.payload.isNone).length = oledPipe1.num_pages + 1 ∧
    ((runSteps (2 * oledPipe1.num_pages + 1) (OLED_refresh oledPipe1)).2.filter
        fun t => t.payload.isSome).length = oledPipe1.num_pages ∧
    (runSteps (2 * oledPipe1.num_pages + 1) (OLED_refresh oledPipe1)).2.getLast?
      = some { addr := oledPipe1.i2c_addr,
               pfx := some (_i2c_cmd_setpage_patched oledPipe1.num_pages),
               payload := none, cbk := Cbk.writepage, fastfail := true } ∧
    (runSteps (2 * oledPipe1.num_pages + 1) (OLED_refresh oledPipe1)).1.oled.busy_lock = 1 ∧
    (runSteps (2 * oledPipe1.num_pages + 1) (OLED_refresh oledPipe1)).1.inflight = none ∧
    ∀ i, i ≤ 2 * oledPipe1.num_pages →
      (runSteps i (OLED_refresh oledPipe1)).1.oled.busy_lock = 0 :=
  OLED_refresh_extra_cursor_set oledPipe1

/-! ## C10: put_line always reaches a return and never divides by zero -/

/-- A uint8_t upper-bounded loop with bound at most 254 terminates. -/
theorem u8forLe_some (s t : Nat) (h : t ≤ 254) :
    u8forLe s t = some (List.range' s (t + 1 - s)) := by
  unfold u8forLe
  rw [if_neg (by omega : ¬(t = 255))]

/-- Every execution of the put_line body past the clamp checks, on normalized
coordinates bounded by 254, reaches an explicit return: one of the special
cases fires, or the staircase section runs where exactly one of the four
situation guards holds. -/
theorem lineCore_isSome (o : OLED) (c : Bool) (sx sy tx ty : Nat)
    (hsxtx : sx ≤ tx) (htx : tx ≤ 254) (hsy : sy ≤ 254) (hty : ty ≤ 254) :
    (lineCore o c sx sy tx ty).isSome = true := by
  unfold lineCore
  split_ifs with h1 h2 h3 h4
  · rw [u8forLe_some sx tx htx]
    rfl
  · rw [u8forLe_some sy ty hty]
    rfl
  · rw [u8forLe_some sx tx htx]
    rfl
  · rw [u8forLe_some sy ty hty]
    rfl
  · -- general staircase section
    have hsx' : sx < tx := by omega
    rcases Nat.lt_trichotomy sy ty with hy | hy | hy
    · -- situation_1
      have hne : ¬(tx - sx = ty - sy) := h4
      by_cases hgt : ty - sy < tx - sx
      · have hd : lineDeltas sx sy tx ty = (tx - sx, ty - sy) := by
          unfold lineDeltas
          rw [if_pos ⟨hsx', hy⟩, if_pos hgt]
        rw [hd]
        dsimp only
        unfold lineFirstCase lineSecondCase
        split_ifs <;>
          first
            | rfl
            | omega
            | (rw [u8forLe_some 0 (tx - sx) (by omega)]; rfl)
      · have hlt : tx - sx < ty - sy := by omega
        have hd : lineDeltas sx sy tx ty = (ty - sy, tx - sx) := by
          unfold lineDeltas
          rw [if_pos ⟨hsx', hy⟩, if_neg (by omega : ¬(ty - sy < tx - sx)), if_pos hlt]
        rw [hd]
        dsimp only
        unfold lineFirstCase lineSecondCase
        split_ifs <;>
          first
            | rfl
            | omega
            | (rw [u8forLe_some 0 (ty - sy) (by omega)]; rfl)
    · exact absurd hy h1
    · -- situation_4
      have hne : ¬(tx - sx = sy - ty) := fun hc => h3 ⟨hc, hsx', hy⟩
      by_cases hgt : sy - ty < tx - sx
      · have hd : lineDeltas sx sy tx ty = (tx - sx, sy - ty) := by
          unfold lineDeltas
          rw [if_neg (by omega : ¬(sx < tx ∧ sy < ty)), if_pos ⟨hsx', hy⟩, if_pos hgt]
        rw [hd]
        dsimp only
        unfold lineFirstCase lineSecondCase
        split_ifs <;>
          first
            | rfl
            | omega
            | (rw [u8forLe_some 0 (tx - sx) (by omega)]; rfl)
      · have hlt : tx - sx < sy - ty := by omega
        have hd : lineDeltas sx sy tx ty = (sy - ty, tx - sx) := by
          unfold lineDeltas
          rw [if_neg (by omega : ¬(sx < tx ∧ sy < ty)), if_pos ⟨hsx', hy⟩,
              if_neg (by omega : ¬(sy - ty < tx - sx)), if_pos hlt]
        rw [hd]
        dsimp only
        unfold lineFirstCase lineSecondCase
        split_ifs <;>
          first
            | rfl
            | omega
            | (rw [u8forLe_some 0 (sy - ty) (by omega)]; rfl)

/-- C10 (amended): on a display with nonzero width and height, every call to
OLED_put_line reaches an explicit return statement - the fall-off at the end
of the function body is unreachable and no loop hangs - and on the general
staircase path the divisors of the two divisions, delta_small (oled.c:467) and
delta_small - delta_big % delta_small (oled.c:526), are nonzero.  The second
conjunct quantifies over the normalized coordinates exactly under the
conditions that reach the staircase section (not horizontal, not vertical,
neither exact-45 branch, with start_x <= stop_x as normSwap guarantees; line
526 is evaluated only when the remainder is nonzero, covered by the second
bound).  (The unamended claim fails on width-0 handles: see the counterexample
theorem.) -/
theorem OLED_put_line_total (o : OLED) (x_from y_from x_to y_to params : Nat)
    (hw1 : 1 ≤ o.width) (hw : o.width ≤ 255) (hh1 : 1 ≤ o.height) (hh : o.height ≤ 255) :
    (OLED_put_line o x_from y_from x_to y_to params).isSome = true ∧
    (∀ sx sy tx ty : Nat, sx ≤ tx → sy ≠ ty → sx ≠ tx →
      ¬(tx - sx = sy - ty ∧ sx < tx ∧ sy > ty) → tx - sx ≠ ty - sy →
      (lineDeltas sx sy tx ty).2 ≠ 0 ∧
      (lineDeltas sx sy tx ty).2
        - (lineDeltas sx sy tx ty).1 % (lineDeltas sx sy tx ty).2 ≠ 0) := by
  constructor
  · have hwmax : (o.width + 255) % 256 = o.width - 1 := by omega
    have hhmax : (o.height + 255) % 256 = o.height - 1 := by omega
    by_cases hpar : params > OLED_BLACK ||| OLED_FILL
    · simp [OLED_put_line, hpar]
    · simp only [OLED_put_line, if_neg hpar, clampOne_fst, clampOne_snd, hwmax, hhmax]
      by_cases herr : ((if x_from > o.width - 1 then 1 else 0) +
            (if x_to > o.width - 1 then 1 else 0) ≥ 2) ∨
          ((if y_from > o.height - 1 then 1 else 0) +
            (if y_to > o.height - 1 then 1 else 0) ≥ 2)
      · rw [if_pos herr]
        rfl
      · rw [if_neg herr]
        unfold normSwap
        split_ifs with hsw
        · dsimp only
          apply lineCore_isSome <;> omega
        · dsimp only
          apply lineCore_isSome <;> omega
  · intro sx sy tx ty hle hne1 hne2 h45a h45b
    have hsx' : sx < tx := by omega
    rcases Nat.lt_trichotomy sy ty with hy | hy | hy
    · by_cases hgt : ty - sy < tx - sx
      · have hd : lineDeltas sx sy tx ty = (tx - sx, ty - sy) := by
          unfold lineDeltas
          rw [if_pos ⟨hsx', hy⟩, if_pos hgt]
        rw [hd]
        dsimp only
        have hmod := Nat.mod_lt (tx - sx) (show 0 < ty - sy by omega)
        omega
      · have hlt : tx - sx < ty - sy := by omega
        have hd : lineDeltas sx sy tx ty = (ty - sy, tx - sx) := by
          unfold lineDeltas
          rw [if_pos ⟨hsx', hy⟩, if_neg (by omega : ¬(ty - sy < tx - sx)), if_pos hlt]
        rw [hd]
        dsimp only
        have hmod := Nat.mod_lt (ty - sy) (show 0 < tx - sx by omega)
        omega
    · exact absurd hy hne1
    · have hne3 : ¬(tx - sx = sy - ty) := fun hc => h45a ⟨hc, hsx', hy⟩
      by_cases hgt : sy - ty < tx - sx
      · have hd : lineDeltas sx sy tx ty = (tx - sx, sy - ty) := by
          unfold lineDeltas
          rw [if_neg (by omega : ¬(sx < tx ∧ sy < ty)), if_pos ⟨hsx', hy⟩, if_pos hgt]
        rw [hd]
        dsimp only
        have hmod := Nat.mod_lt (tx - sx) (show 0 < sy - ty by omega)
        omega
      · have hlt : tx - sx < sy - ty := by omega
        have hd : lineDeltas sx sy tx ty = (sy - ty, tx - sx) := by
          unfold lineDeltas
          rw [if_neg (by omega : ¬(sx < tx ∧ sy < ty)), if_pos ⟨hsx', hy⟩,
              if_neg (by omega : ¬(sy - ty < tx - sx)), if_pos hlt]
        rw [hd]
        dsimp only
        have hmod := Nat.mod_lt (sy - ty) (show 0 < tx - sx by omega)
        omega

/-- C10 witness: the totality contract at the 16x8 display on the staircase
input (0,0)-(7,2). -/
theorem OLED_put_line_total_witness :
    (1 ≤ oled16x8.width ∧ oled16x8.width ≤ 255 ∧ 1 ≤ oled16x8.height ∧
      oled16x8.height ≤ 255) ∧
    ((OLED_put_line oled16x8 0 0 7 2 1).isSome = true ∧
      (∀ sx sy tx ty : Nat, sx ≤ tx → sy ≠ ty → sx ≠ tx →
        ¬(tx - sx = sy - ty ∧ sx < tx ∧ sy > ty) → tx - sx ≠ ty - sy →
        (lineDeltas sx sy tx ty).2 ≠ 0 ∧
        (lineDeltas sx sy tx ty).2
          - (lineDeltas sx sy tx ty).1 % (lineDeltas sx sy tx ty).2 ≠ 0)) :=
  ⟨by decide,
   OLED_put_line_total oled16x8 0 0 7 2 1 (by decide) (by decide) (by decide) (by decide)⟩
